import Mathlib

/-! # c2go: decay-type resolver, allocation-call recognizer, binary-operator transpiler

A shallow embedding of

* `types/dereference.go`   (`GetDereferenceType`),
* `transpiler/binary.go`   (`GetAllocationSizeNode`, `transpileBinaryOperator`),

together with the properties of these functions that the design document states.

Conventions of the embedding.

* A Go `string` is a Lean `String`; the strings that are sliced by byte index here
  consist of ASCII characters only, so byte offsets and character offsets agree.
* A Go `error` is `Option GoError` (`none` is the nil error), an error value being
  represented by its message.
* A Go interface or pointer that may be nil is an `Option`.
* A run that ends in a Go panic (index out of range, failed type assertion, ...) is
  the value `Res.panic`.
-/

namespace C2Go

/-! ## Go library: `regexp` (the fragment used by the two patterns) and `strings` -/

/-- A Go error value, represented by its message (`errors.New(msg)`). -/
abbrev GoError := String

/-- Repetition operator of one pattern item: exactly once, greedy `*`, greedy `+`. -/
inductive Quant where
  | one
  | star
  | plus
  deriving DecidableEq, Repr

/-- One item of a pattern: a character class under a repetition operator. -/
structure Atom where
  cls : Char → Bool
  q : Quant

/-- A regular expression of the shape used in `dereference.go`: a concatenation of
repeated character classes, some of which are capturing groups (`groups` lists the
positions, in `atoms`, of the items in parentheses, in order). -/
structure Regexp where
  atoms : List Atom
  groups : List Nat

/-- Greedy choice: the first of `f k, f (k-1), ..., f lo` that succeeds. -/
def tryDown {α : Type} (f : Nat → Option α) (lo : Nat) : Nat → Option α
  | 0 => if lo = 0 then f 0 else none
  | k + 1 =>
    if lo ≤ k + 1 then
      match f (k + 1) with
      | some r => some r
      | none => tryDown f lo k
    else none

/-- Backtracking match of a concatenation of items at the start of `s`, with the
preference order of Go's `regexp` (leftmost-first: every greedy item takes as much
as it can, and gives back one character at a time when the rest fails).  The result
is the text consumed by each item. -/
def matchHere : List Atom → List Char → Option (List (List Char))
  | [], _ => some []
  | a :: rest, s =>
    let n := (s.takeWhile a.cls).length
    let f := fun k => (matchHere rest (s.drop k)).map (fun r => s.take k :: r)
    match a.q with
    | Quant.one => if 1 ≤ n then f 1 else none
    | Quant.star => tryDown f 0 n
    | Quant.plus => tryDown f 1 n

/-- Leftmost match: the first start position at which `matchHere` succeeds. -/
def findAt (atoms : List Atom) : List Char → Option (List (List Char))
  | [] => matchHere atoms []
  | c :: cs =>
    match matchHere atoms (c :: cs) with
    | some r => some r
    | none => findAt atoms cs

/-- Go `(*Regexp).FindStringSubmatch`: nil (the empty list) when there is no match,
otherwise the text of the leftmost match followed by the text of each capturing
group. -/
def FindStringSubmatch (re : Regexp) (s : String) : List String :=
  match findAt re.atoms s.toList with
  | none => []
  | some spans =>
    String.mk spans.flatten :: re.groups.map (fun i => String.mk (spans.getD i []))

/-- Perl class `\w` of Go's `regexp`: `[0-9A-Za-z_]`. -/
def isWord (c : Char) : Bool :=
  ('0' ≤ c && c ≤ '9') || ('A' ≤ c && c ≤ 'Z') || ('a' ≤ c && c ≤ 'z') || c == '_'

/-- Perl class `\d` of Go's `regexp`: `[0-9]`. -/
def isDigit (c : Char) : Bool :=
  '0' ≤ c && c ≤ '9'

/-- Perl class `\s` of Go's `regexp`: `[\t\n\f\r ]`. -/
def isReSpace (c : Char) : Bool :=
  c == '\t' || c == '\n' || c == Char.ofNat 12 || c == '\r' || c == ' '

/-- The bracket class `[\w ]`. -/
def isWordOrSpace (c : Char) : Bool :=
  isWord c || c == ' '

/-- Go `unicode.IsSpace`: the characters that `strings.TrimSpace` removes. -/
def isSpace (c : Char) : Bool :=
  let n := c.toNat
  (9 ≤ n && n ≤ 13) || n == 32 || n == 0x85 || n == 0xA0 || n == 0x1680 ||
  (0x2000 ≤ n && n ≤ 0x200A) || n == 0x2028 || n == 0x2029 || n == 0x202F ||
  n == 0x205F || n == 0x3000

/-- Go `strings.TrimSpace` on a list of characters. -/
def trimSpaceChars (l : List Char) : List Char :=
  ((l.reverse.dropWhile isSpace).reverse).dropWhile isSpace

/-- Go `strings.TrimSpace`. -/
def TrimSpace (s : String) : String :=
  String.mk (trimSpaceChars s.toList)

/-- Go slice expression `s[0:hi]` on a string of one-byte characters. -/
def sliceTo (s : String) (hi : Nat) : String :=
  String.mk (s.toList.take hi)

/-! ## `types/dereference.go` -/

/-- The pattern `([\w ]+)\s*\[\d+\]`. -/
def arrayRe : Regexp :=
  { atoms := [⟨isWordOrSpace, Quant.plus⟩, ⟨isReSpace, Quant.star⟩,
              ⟨fun c => c == '[', Quant.one⟩, ⟨isDigit, Quant.plus⟩,
              ⟨fun c => c == ']', Quant.one⟩],
    groups := [0] }

/-- The pattern `([\w ]+)\s*(\*+)`. -/
def pointerRe : Regexp :=
  { atoms := [⟨isWordOrSpace, Quant.plus⟩, ⟨isReSpace, Quant.star⟩,
              ⟨fun c => c == '*', Quant.plus⟩],
    groups := [0, 2] }

/-- The function `GetDereferenceType` of `types/dereference.go`; the pair is Go's
`(string, error)`. -/
def GetDereferenceType (cType : String) : String × Option GoError :=
  -- In the form of: "char [8]" -> "char"
  let search := FindStringSubmatch arrayRe cType
  if search.length > 0 then
    (TrimSpace (search.getD 1 ""), none)
  else
    -- In the form of: "char **" -> "char *"
    let search := FindStringSubmatch pointerRe cType
    if search.length > 0 then
      (TrimSpace (search.getD 1 "" ++
        sliceTo (search.getD 2 "") ((search.getD 2 "").length - 1)), none)
    else
      ("", some cType)


/-! ## Shapes of type strings -/

/-- What one pattern item may consume: characters of its class, as many as its
repetition operator allows. -/
def SpanOK (a : Atom) (sp : List Char) : Prop :=
  (∀ c ∈ sp, a.cls c = true) ∧
  (a.q = Quant.one → sp.length = 1) ∧ (a.q = Quant.plus → 1 ≤ sp.length)

/-- The string holds, somewhere, a character of `[\w ]`, then optional white space,
then `[`, one or more digits and `]`: an occurrence of the array pattern. -/
def HasArrayForm (s : String) : Prop :=
  ∃ pre w ws ds post : List Char,
    s.toList = pre ++ w ++ ws ++ '[' :: ds ++ ']' :: post ∧
    w ≠ [] ∧ (∀ c ∈ w, isWordOrSpace c = true) ∧ (∀ c ∈ ws, isReSpace c = true) ∧
    ds ≠ [] ∧ (∀ c ∈ ds, isDigit c = true)

/-- The string holds, somewhere, a character of `[\w ]`, then optional white space,
then `*`: an occurrence of the pointer pattern. -/
def HasPointerForm (s : String) : Prop :=
  ∃ pre w ws post : List Char,
    s.toList = pre ++ w ++ ws ++ '*' :: post ∧
    w ≠ [] ∧ (∀ c ∈ w, isWordOrSpace c = true) ∧ (∀ c ∈ ws, isReSpace c = true)

/-- The string ends in `[`, one or more digits, `]`. -/
def hasArrayLengthSuffix (s : String) : Bool :=
  match s.toList.reverse with
  | ']' :: r => !(r.takeWhile isDigit).isEmpty && (r.dropWhile isDigit).head? == some '['
  | _ => false

/-- The string ends in `*`. -/
def hasPointerStarSuffix (s : String) : Bool :=
  s.toList.getLast? == some '*'

/-- A run of `k` pointer stars. -/
def stars (k : Nat) : String :=
  String.mk (List.replicate k '*')

/-- Number of pointer stars in a type string. -/
def countStars (l : List Char) : Nat :=
  l.count '*'

/-- Whether the text after a `[` goes on with one or more digits and `]`. -/
def closesArrayGroup (cs : List Char) : Bool :=
  !(cs.takeWhile isDigit).isEmpty && (cs.dropWhile isDigit).head? == some ']'

/-- Number of groups `[digits]` in a type string. -/
def countArrayGroups : List Char → Nat
  | [] => 0
  | c :: cs => (if c == '[' && closesArrayGroup cs then 1 else 0) + countArrayGroups cs

/-- Levels of indirection of a type string: every `*` and every group `[digits]`
counts as one. -/
def indirectionLevels (s : String) : Nat :=
  countStars s.toList + countArrayGroups s.toList

/-- The result of `n` successful applications of `GetDereferenceType` in a row,
starting from `s`; `none` when one of them fails. -/
def decayTimes : Nat → String → Option String
  | 0, s => some s
  | n + 1, s =>
    match GetDereferenceType s with
    | (r, none) => decayTimes n r
    | (_, some _) => none

/-! ## The C syntax tree (`ast`) and the Go syntax tree (`go/ast`, `go/token`) -/

/-- Outcome of a run: a Go panic (index out of range, failed type assertion, unknown
operator), or a normal return. -/
inductive Res (α : Type) where
  | panic : Res α
  | ok : α → Res α

/-- Nodes of the C syntax tree, `ast.Node`.  The variants the transpiler looks into
carry their own fields; every other variant is `Other`, tagged with its Go type
name. -/
inductive Node where
  | BinaryOperator (Address Position Type_ Operator : String) (Children : List Node)
  | CallExpr (Address Position Type_ : String) (Children : List Node)
  | OffsetOfExpr (Address Position Type_ : String) (Children : List Node)
  | Other (Kind Name Type_ : String) (Children : List Node)

/-- The dynamic type of a node (`reflect.TypeOf`). -/
inductive NodeType where
  | BinaryOperator
  | CallExpr
  | OffsetOfExpr
  | Other (Kind : String)
  deriving DecidableEq

/-- The dynamic type of a node. -/
def Node.typeOf : Node → NodeType
  | Node.BinaryOperator _ _ _ _ _ => NodeType.BinaryOperator
  | Node.CallExpr _ _ _ _ => NodeType.CallExpr
  | Node.OffsetOfExpr _ _ _ _ => NodeType.OffsetOfExpr
  | Node.Other k _ _ _ => NodeType.Other k

/-- The Go struct `ast.BinaryOperator`, the argument of `transpileBinaryOperator`. -/
structure BinaryOperator where
  Address : String
  Position : String
  Type_ : String
  Operator : String
  Children : List Node

/-- A `*ast.BinaryOperator` seen as an `ast.Node`. -/
def BinaryOperator.toNode (n : BinaryOperator) : Node :=
  Node.BinaryOperator n.Address n.Position n.Type_ n.Operator n.Children

/-- Operator and literal tokens of `go/token`. -/
inductive Token where
  | INT | STRING
  | ADD | SUB | MUL | QUO | REM
  | AND | OR | XOR | SHL | SHR
  | ADD_ASSIGN | SUB_ASSIGN | MUL_ASSIGN | QUO_ASSIGN | REM_ASSIGN
  | AND_ASSIGN | OR_ASSIGN | XOR_ASSIGN | SHL_ASSIGN | SHR_ASSIGN
  | LAND | LOR
  | EQL | LSS | GTR | ASSIGN | NOT
  | NEQ | LEQ | GEQ
  | COMMA
  deriving DecidableEq, Repr

/-- Expressions of `go/ast`: the node kinds built or inspected by the transpiler. -/
inductive GoExpr where
  | BasicLit (Kind : Token) (Value : String)
  | Ident (Name : String)
  | BinaryExpr (X : Option GoExpr) (Op : Token) (Y : Option GoExpr)
  | UnaryExpr (Op : Token) (X : Option GoExpr)
  | CallExpr (Fun : Option GoExpr) (Args : List (Option GoExpr))
  | ParenExpr (X : Option GoExpr)
  | SliceExpr (X Low High Max : Option GoExpr) (Slice3 : Bool)
  | Other (text : String)

/-- Statements of `go/ast`; the transpiler only moves them around. -/
inductive GoStmt where
  | ExprStmt (X : Option GoExpr)
  | Other (text : String)

/-- Go `goast.NewIdent`. -/
def NewIdent (name : String) : Option GoExpr :=
  some (GoExpr.Ident name)

/-- Modelled from the spec: `util.NewStringLit` is not among the sources; it builds
the literal whose text is `value` (a `BasicLit` of kind `STRING`). -/
def NewStringLit (value : String) : Option GoExpr :=
  some (GoExpr.BasicLit Token.STRING value)

/-- Modelled from the spec: `util.NewIntLit` is not among the sources; it builds the
integer literal of `value` in decimal. -/
def NewIntLit (value : Int) : Option GoExpr :=
  some (GoExpr.BasicLit Token.INT (toString value))

/-- Modelled from the spec: `util.NewBinaryExpr` is not among the sources; it builds
the binary expression `left operator right`. -/
def NewBinaryExpr (left : Option GoExpr) (operator : Token) (right : Option GoExpr) :
    GoExpr :=
  GoExpr.BinaryExpr left operator right

/-- Modelled from the spec: `util.NewCallExpr` is not among the sources; it builds the
call of the function named `functionName` on `args`. -/
def NewCallExpr (functionName : String) (args : List (Option GoExpr)) : Option GoExpr :=
  some (GoExpr.CallExpr (NewIdent functionName) args)

/-- Modelled from the spec: `combinePreAndPostStmts` is not among the sources; the
new pre-list is appended to the running pre-list and the new post-list to the
running post-list. -/
def combinePreAndPostStmts (pre post newPre newPost : List GoStmt) :
    List GoStmt × List GoStmt :=
  (pre ++ newPre, post ++ newPost)

/-- Modelled from the spec: the table behind `getTokenForOperator` is not among the
sources; it has one case per C binary operator (logical, equality, relational,
arithmetic, bitwise, assignment, compound assignment). -/
def operatorTable : List (String × Token) :=
  [("&&", Token.LAND), ("||", Token.LOR),
   ("==", Token.EQL), ("!=", Token.NEQ),
   ("<", Token.LSS), (">", Token.GTR), ("<=", Token.LEQ), (">=", Token.GEQ),
   ("+", Token.ADD), ("-", Token.SUB), ("*", Token.MUL), ("/", Token.QUO),
   ("%", Token.REM),
   ("&", Token.AND), ("|", Token.OR), ("^", Token.XOR), ("<<", Token.SHL),
   (">>", Token.SHR),
   ("=", Token.ASSIGN),
   ("+=", Token.ADD_ASSIGN), ("-=", Token.SUB_ASSIGN), ("*=", Token.MUL_ASSIGN),
   ("/=", Token.QUO_ASSIGN), ("%=", Token.REM_ASSIGN), ("&=", Token.AND_ASSIGN),
   ("|=", Token.OR_ASSIGN), ("^=", Token.XOR_ASSIGN), ("<<=", Token.SHL_ASSIGN),
   (">>=", Token.SHR_ASSIGN),
   (",", Token.COMMA)]

/-- Modelled from the spec: `getTokenForOperator` is not among the sources; it is a
fixed lookup table, and an operator outside the table is fatal (`none` stands for the
panic). -/
def getTokenForOperator (operator : String) : Option Token :=
  operatorTable.lookup operator

/-! ## `transpiler/binary.go`: the allocation-call recognizer -/

/-- The loop of `GetAllocationSizeNode` over the collected nodes.  `getName` is
`getNameOfFunctionFromCallExpr` (its error result is dropped by the caller). -/
def allocationLoop (getName : Node → String × Option GoError) :
    List Node → Res (Option Node)
  | [] => Res.ok none
  | expr :: exprs =>
    match expr with
    | Node.CallExpr _ _ _ children =>
      let functionName := (getName expr).1
      if functionName = "malloc" then
        -- expr.(*ast.CallExpr).Children[1]
        match children.get? 1 with
        | some c => Res.ok (some c)
        | none => Res.panic
      else if functionName = "calloc" then
        -- Children[1:] of an empty slice panics
        if 1 ≤ children.length then
          Res.ok (some (Node.BinaryOperator "" "" "int" "*" (children.drop 1)))
        else Res.panic
      else if functionName = "realloc" then
        -- expr.(*ast.CallExpr).Children[2]
        match children.get? 2 with
        | some c => Res.ok (some c)
        | none => Res.panic
      else allocationLoop getName exprs
    | _ => Res.panic  -- expr.(*ast.CallExpr) on another variant

/-- The function `GetAllocationSizeNode` of `transpiler/binary.go`.  The two helpers it calls,
`traverse.GetAllNodesOfType` and `getNameOfFunctionFromCallExpr`, are not among the
sources and are parameters. -/
def GetAllocationSizeNode (GetAllNodesOfType : Node → NodeType → List Node)
    (getNameOfFunctionFromCallExpr : Node → String × Option GoError) (node : Node) :
    Res (Option Node) :=
  let exprs := GetAllNodesOfType node NodeType.CallExpr
  allocationLoop getNameOfFunctionFromCallExpr exprs

mutual
/-- Modelled from the spec: `traverse.GetAllNodesOfType` is not among the sources; it
walks the whole subtree below `root` and collects every node of the given type, here
in pre-order. -/
def GetAllNodesOfType : Node → NodeType → List Node
  | Node.BinaryOperator a p t o cs, ty =>
    (if ty = NodeType.BinaryOperator then [Node.BinaryOperator a p t o cs] else []) ++
      GetAllNodesOfTypeList cs ty
  | Node.CallExpr a p t cs, ty =>
    (if ty = NodeType.CallExpr then [Node.CallExpr a p t cs] else []) ++
      GetAllNodesOfTypeList cs ty
  | Node.OffsetOfExpr a p t cs, ty =>
    (if ty = NodeType.OffsetOfExpr then [Node.OffsetOfExpr a p t cs] else []) ++
      GetAllNodesOfTypeList cs ty
  | Node.Other k n t cs, ty =>
    (if ty = NodeType.Other k then [Node.Other k n t cs] else []) ++
      GetAllNodesOfTypeList cs ty
/-- The nodes of the given type below each node of a list, left to right. -/
def GetAllNodesOfTypeList : List Node → NodeType → List Node
  | [], _ => []
  | c :: cs, ty => GetAllNodesOfType c ty ++ GetAllNodesOfTypeList cs ty
end

/-- Modelled from the spec: `getNameOfFunctionFromCallExpr` is not among the sources;
child 0 of a call is the callee reference and identifies the callee's name: the
reference itself when it carries a name, else the first node below it. -/
def getNameOfFunctionFromCallExpr : Node → String × Option GoError
  | Node.CallExpr _ _ _ (Node.Other _ name _ cs :: _) =>
    if name ≠ "" then (name, none)
    else
      match cs with
      | Node.Other _ inner _ _ :: _ => (inner, none)
      | _ => ("", some "unable to use CallExpr")
  | _ => ("", some "unable to use CallExpr")

/-- A collected node that the search steps over: a call whose callee is none of
`malloc`, `calloc`, `realloc`. -/
def isOtherCall (getName : Node → String × Option GoError) (e : Node) : Bool :=
  match e with
  | Node.CallExpr _ _ _ _ =>
    (getName e).1 ≠ "malloc" ∧ (getName e).1 ≠ "calloc" ∧ (getName e).1 ≠ "realloc"
  | _ => false

/-- A collected node at which the search stops: a call of `malloc`, `calloc` or
`realloc`. -/
def isAllocationCall (getName : Node → String × Option GoError) (e : Node) : Bool :=
  match e with
  | Node.CallExpr _ _ _ _ =>
    (getName e).1 = "malloc" ∨ (getName e).1 = "calloc" ∨ (getName e).1 = "realloc"
  | _ => false

/-! ## `transpiler/binary.go`: the binary-operator transpiler -/

/-- What `transpileToExpr` returns: the Go expression, its C type, the statements to
run before and after it, and the error. -/
structure ExprResult where
  expr : Option GoExpr
  ctype : String
  preStmts : List GoStmt
  postStmts : List GoStmt
  err : Option GoError

/-- What `transpileBinaryOperator` returns:
`(*goast.BinaryExpr, string, []goast.Stmt, []goast.Stmt, error)`.  A nil slice is
the empty list. -/
structure BinaryResult where
  expr : Option GoExpr
  resultType : String
  preStmts : List GoStmt
  postStmts : List GoStmt
  err : Option GoError

/-- The collaborators of `transpileBinaryOperator` that are not among the sources,
over a program state `P` (`*program.Program`, which also stands for the diagnostic
sink).  The expression dispatcher may change the state; the type resolver
(`ResolveTypeForBinaryOperator`, `CastExpr`, `IsNullExpr`, `ResolveType`, `SizeOf`)
only reads it; `WarningOrError` and `warn` record a diagnostic; `AddImport` registers
an import. -/
structure Env (P : Type) where
  transpileToExpr : Node → P → ExprResult × P
  ResolveTypeForBinaryOperator : P → String → String → String → String
  CastExpr : P → Option GoExpr → String → String → Option GoExpr × Option GoError
  IsNullExpr : Option GoExpr → Bool
  ResolveType : P → String → String × Option GoError
  SizeOf : P → String → Int × Option GoError
  WarningOrError : Option GoError → Node → Bool → P → P
  warn : GoError → Node → P → P
  AddImport : String → P → P
  GetAllNodesOfType : Node → NodeType → List Node
  getNameOfFunctionFromCallExpr : Node → String × Option GoError

/-- Modelled from the spec: `ast.IsWarning` is not among the sources; a nil error is
no warning, any other error is recorded as a non-fatal warning and reported as
`true`. -/
def IsWarning {P : Type} (env : Env P) (e : Option GoError) (n : Node) (p : P) : Bool × P :=
  match e with
  | none => (false, p)
  | some msg => (true, env.warn msg n p)

/-- The last statement of `transpileBinaryOperator`: the binary expression with the
resolver-combined type, the accumulated statement lists and a nil error. -/
def binaryReturn {P : Type} (env : Env P) (n : BinaryOperator) (leftType rightType : String)
    (left : Option GoExpr) (operator : Token) (right : Option GoExpr)
    (preStmts postStmts : List GoStmt) (p : P) : Res (BinaryResult × P) :=
  Res.ok (⟨some (NewBinaryExpr left operator right),
    env.ResolveTypeForBinaryOperator p n.Operator leftType rightType,
    preStmts, postStmts, none⟩, p)

/-- The function `transpileBinaryOperator` of `transpiler/binary.go`. -/
def transpileBinaryOperator {P : Type} (env : Env P) (n : BinaryOperator) (p : P) :
    Res (BinaryResult × P) :=
  let preStmts : List GoStmt := []
  let postStmts : List GoStmt := []
  match n.Children.get? 0 with
  | none => Res.panic
  | some child0 =>
  let (l, p) := env.transpileToExpr child0 p
  match l.err with
  | some err => Res.ok (⟨none, "", [], [], some err⟩, p)
  | none =>
  let (preStmts, postStmts) := combinePreAndPostStmts preStmts postStmts l.preStmts l.postStmts
  match n.Children.get? 1 with
  | none => Res.panic
  | some child1 =>
  let (r, p) := env.transpileToExpr child1 p
  match r.err with
  | some err => Res.ok (⟨none, "", [], [], some err⟩, p)
  | none =>
  let (preStmts, postStmts) := combinePreAndPostStmts preStmts postStmts r.preStmts r.postStmts
  match getTokenForOperator n.Operator with
  | none => Res.panic
  | some operator =>
  let returnType := env.ResolveTypeForBinaryOperator p n.Operator l.ctype r.ctype
  if operator = Token.LAND then
    let (left, err) := env.CastExpr p l.expr l.ctype "bool"
    let p := env.WarningOrError err n.toNode left.isNone p
    let left := if left.isNone then NewStringLit "nil" else left
    let (right, err) := env.CastExpr p r.expr r.ctype "bool"
    let p := env.WarningOrError err n.toNode right.isNone p
    let right := if right.isNone then NewStringLit "nil" else right
    Res.ok (⟨some (NewBinaryExpr left operator right), "bool", preStmts, postStmts, none⟩, p)
  else
  -- Convert "(0)" to "nil" when we are dealing with equality.
  let right :=
    if (operator = Token.NEQ ∨ operator = Token.EQL) ∧ env.IsNullExpr r.expr = true then
      NewIdent "nil"
    else r.expr
  if operator = Token.ASSIGN then
    -- Memory allocation is translated into the Go-style.
    match GetAllocationSizeNode env.GetAllNodesOfType env.getNameOfFunctionFromCallExpr
        child1 with
    | Res.panic => Res.panic
    | Res.ok (some allocSize) =>
      let (a, p) := env.transpileToExpr allocSize p
      let (preStmts, postStmts) :=
        combinePreAndPostStmts preStmts postStmts a.preStmts a.postStmts
      match a.err with
      | some err => Res.ok (⟨none, "", preStmts, postStmts, some err⟩, p)
      | none =>
      match GetDereferenceType l.ctype with
      | (_, some err) => Res.ok (⟨none, "", preStmts, postStmts, some err⟩, p)
      | (derefType, none) =>
      match env.ResolveType p l.ctype with
      | (_, some err) => Res.ok (⟨none, "", preStmts, postStmts, some err⟩, p)
      | (toType, none) =>
      match env.SizeOf p derefType with
      | (_, some err) => Res.ok (⟨none, "", preStmts, postStmts, some err⟩, p)
      | (elementSize, none) =>
      let right := NewCallExpr "make"
        [NewStringLit toType,
         some (NewBinaryExpr a.expr Token.QUO (NewIntLit elementSize))]
      binaryReturn env n l.ctype r.ctype l.expr operator right preStmts postStmts p
    | Res.ok none =>
      let (right, err) := env.CastExpr p right r.ctype returnType
      match right with
      | some (GoExpr.UnaryExpr _ _) =>
        let (deref, derefErr) := GetDereferenceType r.ctype
        let (w, p) := IsWarning env derefErr n.toNode p
        if !w then
          -- (*[1]int)(unsafe.Pointer(&a))[:]
          let p := env.AddImport "unsafe" p
          let right := some (GoExpr.SliceExpr
            (NewCallExpr ("(*[1]" ++ deref ++ ")") [NewCallExpr "unsafe.Pointer" [right]])
            none none none false)
          let (w, p) := IsWarning env err n.toNode p
          let right := if w && right.isNone then NewStringLit "nil" else right
          binaryReturn env n l.ctype r.ctype l.expr operator right preStmts postStmts p
        else
          let (w, p) := IsWarning env err n.toNode p
          let right := if w && right.isNone then NewStringLit "nil" else right
          binaryReturn env n l.ctype r.ctype l.expr operator right preStmts postStmts p
      | _ =>
        let (w, p) := IsWarning env err n.toNode p
        let right := if w && right.isNone then NewStringLit "nil" else right
        binaryReturn env n l.ctype r.ctype l.expr operator right preStmts postStmts p
  else
    binaryReturn env n l.ctype r.ctype l.expr operator right preStmts postStmts p

/-! ## Example trees and an example environment -/

/-- A reference to the declared name `name` of C type `ty`. -/
def declRef (name ty : String) : Node :=
  Node.Other "DeclRefExpr" name ty []

/-- An integer literal. -/
def intLit (value : String) : Node :=
  Node.Other "IntegerLiteral" value "int" []

/-- The call `name(args)`: child 0 is the callee reference. -/
def callOf (name ty : String) (args : List Node) : Node :=
  Node.CallExpr "" "" ty (Node.Other "ImplicitCastExpr" "" "" [declRef name ""] :: args)

/-- The tree of `foo(malloc(8), calloc(2, 4))`. -/
def nestedCalls : Node :=
  callOf "foo" "int" [callOf "malloc" "void *" [intLit "8"],
    callOf "calloc" "void *" [intLit "2", intLit "4"]]

/-- The tree of `bar(calloc(2, 4), malloc(8))`. -/
def callocFirst : Node :=
  callOf "bar" "int" [callOf "calloc" "void *" [intLit "2", intLit "4"],
    callOf "malloc" "void *" [intLit "8"]]

/-- The tree of `realloc(p, 16)`. -/
def reallocCall : Node :=
  callOf "realloc" "void *" [declRef "p" "int *", intLit "16"]

/-- An example program state: the registered imports and the recorded diagnostics. -/
structure Program where
  imports : List String
  warnings : List String

/-- The empty program state. -/
def Program.empty : Program :=
  { imports := [], warnings := [] }

/-- Example expression of a leaf: a name, an integer literal, or the null constant
`(0)`. -/
def exampleLeaf : Node → Option GoExpr
  | Node.Other "DeclRefExpr" name _ _ => some (GoExpr.Ident name)
  | Node.Other "IntegerLiteral" value _ _ => some (GoExpr.BasicLit Token.INT value)
  | Node.Other "NullExpr" _ _ _ =>
    some (GoExpr.ParenExpr (some (GoExpr.BasicLit Token.INT "0")))
  | Node.Other kind _ _ _ => some (GoExpr.Other kind)
  | _ => none

/-- Example expression dispatcher: leaves as in `exampleLeaf`, a binary operator over
two leaves as the binary expression over them, a node of kind `Unsupported` as an
error; the state is left alone. -/
def exampleTranspileToExpr (n : Node) (p : Program) : ExprResult × Program :=
  match n with
  | Node.Other "Unsupported" _ _ _ => (⟨none, "", [], [], some "unsupported node"⟩, p)
  | Node.Other kind name ty cs => (⟨exampleLeaf (Node.Other kind name ty cs), ty, [], [], none⟩, p)
  | Node.BinaryOperator _ _ ty op [x, y] =>
    (⟨some (GoExpr.BinaryExpr (exampleLeaf x) ((getTokenForOperator op).getD Token.ADD)
        (exampleLeaf y)), ty, [], [], none⟩, p)
  | Node.CallExpr _ _ ty _ => (⟨some (GoExpr.Other "call"), ty, [], [], none⟩, p)
  | _ => (⟨none, "", [], [], some "unsupported node"⟩, p)

/-- Example cast: to `bool`, an `int` becomes `x != 0` and any other type is refused
with no expression; every other cast keeps the expression. -/
def exampleCastExpr (_p : Program) (e : Option GoExpr) (fromType toType : String) :
    Option GoExpr × Option GoError :=
  if toType = "bool" then
    if fromType = "bool" then (e, none)
    else if fromType = "int" then
      (some (GoExpr.BinaryExpr e Token.NEQ (some (GoExpr.BasicLit Token.INT "0"))), none)
    else (none, some ("cannot cast " ++ fromType ++ " to bool"))
  else (e, none)

/-- Example environment. -/
def exampleEnv : Env Program :=
  { transpileToExpr := exampleTranspileToExpr
    ResolveTypeForBinaryOperator := fun _ op leftType _ =>
      if op = "==" ∨ op = "!=" ∨ op = "<" ∨ op = ">" ∨ op = "<=" ∨ op = ">=" then "bool"
      else leftType
    CastExpr := exampleCastExpr
    IsNullExpr := fun e =>
      match e with
      | some (GoExpr.ParenExpr (some (GoExpr.BasicLit _ "0"))) => true
      | _ => false
    ResolveType := fun _ t =>
      if t = "int *" then ("[]int", none)
      else if t = "int" then ("int", none)
      else ("", some ("cannot resolve " ++ t))
    SizeOf := fun _ t =>
      if t = "int" then (4, none)
      else if t = "char" then (1, none)
      else (0, some ("cannot determine size of " ++ t))
    WarningOrError := fun e _ _ p =>
      match e with
      | none => p
      | some msg => { p with warnings := p.warnings ++ [msg] }
    warn := fun msg _ p => { p with warnings := p.warnings ++ [msg] }
    AddImport := fun name p =>
      if name ∈ p.imports then p else { p with imports := p.imports ++ [name] }
    GetAllNodesOfType := GetAllNodesOfType
    getNameOfFunctionFromCallExpr := getNameOfFunctionFromCallExpr }

/-- The tree of `a = (int *)malloc(n * 4)` with `a` of type `int *`. -/
def mallocAssign : BinaryOperator :=
  { Address := "", Position := "", Type_ := "int *", Operator := "=",
    Children := [declRef "a" "int *",
      Node.Other "CStyleCastExpr" "" "int *"
        [callOf "malloc" "void *"
          [Node.BinaryOperator "" "" "int" "*" [declRef "n" "int", intLit "4"]]]] }

/-- The tree of `x op y` over two names of the given types. -/
def binaryOf (op : String) (x xt y yt : String) : BinaryOperator :=
  { Address := "", Position := "", Type_ := "int", Operator := op,
    Children := [declRef x xt, declRef y yt] }

/-- Whether an expression is a `*goast.UnaryExpr`. -/
def isUnaryExpr : Option GoExpr → Bool
  | some (GoExpr.UnaryExpr _ _) => true
  | _ => false

/-- The one-element view `(*[1]D)(unsafe.Pointer(c))[:]` over the storage that `c`
points to. -/
def oneElementView (D : String) (c : Option GoExpr) : Option GoExpr :=
  some (GoExpr.SliceExpr
    (some (GoExpr.CallExpr (some (GoExpr.Ident ("(*[1]" ++ D ++ ")")))
      [some (GoExpr.CallExpr (some (GoExpr.Ident "unsafe.Pointer")) [c])]))
    none none none false)

/-- Example expression dispatcher with hoisting: a call becomes a temporary, with one
statement to run before the expression and one after it; the address of a name
becomes the unary expression `&name`; everything else as in
`exampleTranspileToExpr`. -/
def hoistTranspileToExpr (n : Node) (p : Program) : ExprResult × Program :=
  match n with
  | Node.CallExpr a b ty cs =>
    let name := (getNameOfFunctionFromCallExpr (Node.CallExpr a b ty cs)).1
    (⟨some (GoExpr.Ident ("tmp_" ++ name)), ty,
      [GoStmt.Other ("tmp_" ++ name ++ " := " ++ name ++ "()")],
      [GoStmt.Other ("release(tmp_" ++ name ++ ")")], none⟩, p)
  | Node.Other "AddressOf" name ty _ =>
    (⟨some (GoExpr.UnaryExpr Token.AND (some (GoExpr.Ident name))), ty, [], [], none⟩, p)
  | _ => exampleTranspileToExpr n p

/-- Example environment with the hoisting dispatcher. -/
def hoistEnv : Env Program :=
  { exampleEnv with transpileToExpr := hoistTranspileToExpr }

/-- The tree of `f() + g()`. -/
def sumOfCalls : BinaryOperator :=
  { Address := "", Position := "", Type_ := "int", Operator := "+",
    Children := [callOf "f" "int" [], callOf "g" "int" []] }

/-- The tree of `a = malloc(n)` with `a` of type `int`, a type with no level of
indirection to strip. -/
def mallocIntoInt : BinaryOperator :=
  { Address := "", Position := "", Type_ := "int", Operator := "=",
    Children := [declRef "a" "int", callOf "malloc" "void *" [declRef "n" "int"]] }

/-- The tree of `p = &a` with `p` of type `int *`. -/
def addressAssign : BinaryOperator :=
  { Address := "", Position := "", Type_ := "int *", Operator := "=",
    Children := [declRef "p" "int *", Node.Other "AddressOf" "a" "int *" []] }

/-- The tree of `b = s` with `b` of type `bool` and `s` of a type that has no cast to
`bool`. -/
def uncastableAssign : BinaryOperator :=
  { Address := "", Position := "", Type_ := "bool", Operator := "=",
    Children := [declRef "b" "bool", declRef "s" "struct S"] }

/-! # Properties -/

/-! ## Lemmas on the matcher -/

theorem tryDown_top {α : Type} (f : Nat → Option α) (lo n : Nat) (r : α)
    (hlo : lo ≤ n) (hf : f n = some r) : tryDown f lo n = some r := by
  cases n with
  | zero =>
    have : lo = 0 := by omega
    simp [tryDown, this, hf]
  | succ k => simp [tryDown, hlo, hf]

theorem tryDown_sound {α : Type} (f : Nat → Option α) (lo : Nat) :
    ∀ (n : Nat) (r : α), tryDown f lo n = some r → ∃ k, lo ≤ k ∧ k ≤ n ∧ f k = some r := by
  intro n
  induction n with
  | zero =>
    intro r h
    unfold tryDown at h
    split at h
    · next h0 => exact ⟨0, by omega, le_refl _, h⟩
    · cases h
  | succ k ih =>
    intro r h
    unfold tryDown at h
    split at h
    · next hle =>
      cases hfk : f (k + 1) with
      | some r2 =>
        rw [hfk] at h
        simp only at h
        exact ⟨k + 1, hle, le_refl _, by rw [hfk]; exact h⟩
      | none =>
        rw [hfk] at h
        simp only at h
        obtain ⟨j, h1, h2, h3⟩ := ih r h
        exact ⟨j, h1, by omega, h3⟩
    · cases h

theorem tryDown_complete {α : Type} (f : Nat → Option α) (lo : Nat) :
    ∀ (n k : Nat), lo ≤ k → k ≤ n → (f k).isSome = true → (tryDown f lo n).isSome = true := by
  intro n
  induction n with
  | zero =>
    intro k h1 h2 h3
    have hk : k = 0 := by omega
    subst hk
    have : lo = 0 := by omega
    simp [tryDown, this, h3]
  | succ m ih =>
    intro k h1 h2 h3
    unfold tryDown
    have hle : lo ≤ m + 1 := by omega
    simp only [hle, if_true]
    cases hfk : f (m + 1) with
    | some r2 => simp
    | none =>
      simp only
      have hk : k ≤ m := by
        rcases Nat.lt_or_ge m k with hlt | hge
        · have : k = m + 1 := by omega
          subst this
          rw [hfk] at h3
          cases h3
        · exact hge
      exact ih k h1 hk h3

theorem takeWhile_append_stop (p : Char → Bool) (l r : List Char)
    (hl : ∀ c ∈ l, p c = true) (hr : ∀ c ∈ r.head?, p c = false) :
    (l ++ r).takeWhile p = l := by
  induction l with
  | nil =>
    cases r with
    | nil => rfl
    | cons c cs =>
      have := hr c (by simp)
      simp [List.takeWhile, this]
  | cons a l ih =>
    have ha := hl a (by simp)
    rw [List.cons_append, List.takeWhile_cons, ha, ih (fun c hc => hl c (by simp [hc]))]
    rfl

theorem take_le_takeWhile (p : Char → Bool) (s : List Char) (k : Nat)
    (hk : k ≤ (s.takeWhile p).length) : ∀ c ∈ s.take k, p c = true := by
  intro c hc
  have hs : s = s.takeWhile p ++ s.dropWhile p := (List.takeWhile_append_dropWhile p s).symm
  rw [hs, List.take_append_of_le_length hk] at hc
  exact List.mem_takeWhile_imp (List.mem_of_mem_take hc)

theorem le_takeWhile_of_initial (p : Char → Bool) (l s : List Char)
    (hl : ∀ c ∈ l, p c = true) (hp : l <+: s) : l.length ≤ (s.takeWhile p).length := by
  obtain ⟨t, rfl⟩ := hp
  induction l with
  | nil => simp
  | cons a l ih =>
    have ha := hl a (by simp)
    rw [List.cons_append, List.takeWhile_cons, ha]
    simp only [if_true, List.length_cons]
    have := ih (fun c hc => hl c (by simp [hc]))
    omega

theorem matchHere_sound : ∀ (atoms : List Atom) (s : List Char) (spans : List (List Char)),
    matchHere atoms s = some spans →
    List.Forall₂ SpanOK atoms spans ∧ spans.flatten <+: s := by
  intro atoms
  induction atoms with
  | nil =>
    intro s spans h
    simp only [matchHere, Option.some.injEq] at h
    subst h
    exact ⟨List.Forall₂.nil, by simp⟩
  | cons a rest ih =>
    intro s spans h
    have key : ∀ k, k ≤ (s.takeWhile a.cls).length →
        (a.q = Quant.one → k = 1) → (a.q = Quant.plus → 1 ≤ k) →
        (matchHere rest (s.drop k)).map (fun r => s.take k :: r) = some spans →
        List.Forall₂ SpanOK (a :: rest) spans ∧ spans.flatten <+: s := by
      intro k hk h1 h2 hm
      have hle : (s.takeWhile a.cls).length ≤ s.length :=
        (List.takeWhile_sublist a.cls).length_le
      cases hr : matchHere rest (s.drop k) with
      | none => rw [hr] at hm; cases hm
      | some r =>
        rw [hr] at hm
        simp only [Option.map_some', Option.some.injEq] at hm
        subst hm
        obtain ⟨hf, hp⟩ := ih _ _ hr
        refine ⟨List.Forall₂.cons ⟨take_le_takeWhile _ _ _ hk, ?_, ?_⟩ hf, ?_⟩
        · intro hq
          have := h1 hq
          subst this
          rw [List.length_take]
          omega
        · intro hq
          have := h2 hq
          rw [List.length_take]
          omega
        · rw [List.flatten_cons]
          obtain ⟨t, ht⟩ := hp
          refine ⟨t, ?_⟩
          rw [List.append_assoc, ht, List.take_append_drop]
    unfold matchHere at h
    simp only at h
    cases hq : a.q with
    | one =>
      rw [hq] at h
      simp only at h
      split at h
      · next hn => exact key 1 hn (fun _ => rfl) (by rw [hq]; intro h; cases h) h
      · cases h
    | star =>
      rw [hq] at h
      simp only at h
      obtain ⟨k, _, hk, hf⟩ := tryDown_sound _ _ _ _ h
      exact key k hk (by rw [hq]; intro h; cases h) (by rw [hq]; intro h; cases h) hf
    | plus =>
      rw [hq] at h
      simp only at h
      obtain ⟨k, hk1, hk, hf⟩ := tryDown_sound _ _ _ _ h
      exact key k hk (by rw [hq]; intro h; cases h) (fun _ => hk1) hf

theorem matchHere_complete : ∀ (atoms : List Atom) (s : List Char) (spans : List (List Char)),
    List.Forall₂ SpanOK atoms spans → spans.flatten <+: s →
    (matchHere atoms s).isSome = true := by
  intro atoms
  induction atoms with
  | nil => intro s spans _ _; simp [matchHere]
  | cons a rest ih =>
    intro s spans hf hp
    cases hf with
    | cons hsp hrest =>
      rename_i sp sps
      rw [List.flatten_cons] at hp
      obtain ⟨t, ht⟩ := hp
      have hpre : sp <+: s := ⟨sps.flatten ++ t, by rw [← List.append_assoc]; exact ht⟩
      have hlen := le_takeWhile_of_initial a.cls sp s hsp.1 hpre
      have hdrop : s.drop sp.length = sps.flatten ++ t := by
        rw [← ht, List.append_assoc, List.drop_left]
      have hsome : ((matchHere rest (s.drop sp.length)).map
          (fun r => s.take sp.length :: r)).isSome = true := by
        rw [Option.isSome_map']
        exact ih _ _ hrest ⟨t, hdrop.symm⟩
      unfold matchHere
      simp only
      cases hq : a.q with
      | one =>
        simp only
        have h1 := hsp.2.1 hq
        rw [h1] at hlen hsome
        simp only [hlen, if_true]
        exact hsome
      | star =>
        simp only
        exact tryDown_complete _ _ _ sp.length (Nat.zero_le _) hlen hsome
      | plus =>
        simp only
        exact tryDown_complete _ _ _ sp.length (hsp.2.2 hq) hlen hsome

theorem findAt_sound (atoms : List Atom) : ∀ (s : List Char) (spans : List (List Char)),
    findAt atoms s = some spans →
    ∃ pre suf, s = pre ++ suf ∧ matchHere atoms suf = some spans := by
  intro s
  induction s with
  | nil => intro spans h; exact ⟨[], [], rfl, h⟩
  | cons c cs ih =>
    intro spans h
    unfold findAt at h
    cases hm : matchHere atoms (c :: cs) with
    | some r =>
      rw [hm] at h
      simp only [Option.some.injEq] at h
      subst h
      exact ⟨[], c :: cs, rfl, hm⟩
    | none =>
      rw [hm] at h
      simp only at h
      obtain ⟨pre, suf, h1, h2⟩ := ih spans h
      exact ⟨c :: pre, suf, by rw [h1]; rfl, h2⟩

theorem findAt_complete (atoms : List Atom) : ∀ (pre suf : List Char),
    (matchHere atoms suf).isSome = true → (findAt atoms (pre ++ suf)).isSome = true := by
  intro pre
  induction pre with
  | nil =>
    intro suf h
    cases suf with
    | nil => exact h
    | cons c cs =>
      simp only [List.nil_append]
      unfold findAt
      cases hm : matchHere atoms (c :: cs) with
      | some r => simp
      | none => rw [hm] at h; cases h
  | cons a pre ih =>
    intro suf h
    rw [List.cons_append]
    unfold findAt
    cases hm : matchHere atoms (a :: (pre ++ suf)) with
    | some r => simp
    | none => exact ih suf h

theorem findAt_of_matchHere (atoms : List Atom) (s : List Char) (spans : List (List Char))
    (h : matchHere atoms s = some spans) : findAt atoms s = some spans := by
  cases s with
  | nil => exact h
  | cons c cs =>
    unfold findAt
    rw [h]

theorem matchHere_rep (a : Atom) (rest : List Atom) (l r : List Char)
    (spans : List (List Char)) (hq : a.q ≠ Quant.one)
    (hl : ∀ c ∈ l, a.cls c = true) (hr : ∀ c ∈ r.head?, a.cls c = false)
    (hlen : a.q = Quant.plus → 1 ≤ l.length)
    (hrest : matchHere rest r = some spans) :
    matchHere (a :: rest) (l ++ r) = some (l :: spans) := by
  have htw := takeWhile_append_stop a.cls l r hl hr
  have hf : (matchHere rest ((l ++ r).drop l.length)).map
      (fun x => (l ++ r).take l.length :: x) = some (l :: spans) := by
    rw [List.drop_left, List.take_left, hrest]
    rfl
  unfold matchHere
  simp only [htw]
  cases hqq : a.q with
  | one => exact absurd hqq hq
  | star => exact tryDown_top _ _ _ _ (Nat.zero_le _) hf
  | plus => exact tryDown_top _ _ _ _ (hlen hqq) hf

theorem matchHere_one (a : Atom) (rest : List Atom) (c : Char) (r : List Char)
    (spans : List (List Char)) (hq : a.q = Quant.one) (hc : a.cls c = true)
    (hrest : matchHere rest r = some spans) :
    matchHere (a :: rest) (c :: r) = some ([c] :: spans) := by
  unfold matchHere
  simp only [hq, List.takeWhile_cons, hc, if_true, List.length_cons, List.drop_succ_cons,
    List.drop_zero, hrest, Option.map_some', List.take_succ_cons, List.take_zero]
  simp

theorem arrayRe_match (b n : List Char) (hb : ∀ c ∈ b, isWordOrSpace c = true)
    (hn : n ≠ []) (hd : ∀ c ∈ n, isDigit c = true) :
    findAt arrayRe.atoms (b ++ ' ' :: '[' :: (n ++ [']'])) =
      some [b ++ [' '], [], ['['], n, [']']] := by
  apply findAt_of_matchHere
  have h5 : matchHere [⟨fun c => c == ']', Quant.one⟩] [']'] = some [[']']] :=
    matchHere_one _ _ _ _ _ rfl (by decide) rfl
  have h4 : matchHere [⟨isDigit, Quant.plus⟩, ⟨fun c => c == ']', Quant.one⟩] (n ++ [']'])
      = some [n, [']']] :=
    matchHere_rep _ _ _ _ _ (by decide) hd (by intro c hc; simp at hc; subst hc; decide)
      (fun _ => List.length_pos.mpr hn) h5
  have h3 := matchHere_one ⟨fun c => c == '[', Quant.one⟩ _ '[' _ _ rfl (by decide) h4
  have h2 := matchHere_rep ⟨isReSpace, Quant.star⟩ _ [] _ _ (by decide)
    (by intro c hc; cases hc) (by intro c hc; simp at hc; subst hc; decide)
    (by intro h; cases h) h3
  have h1 := matchHere_rep ⟨isWordOrSpace, Quant.plus⟩ _ (b ++ [' ']) _ _ (by decide)
    (by
      intro c hc
      rcases List.mem_append.mp hc with h | h
      · exact hb c h
      · simp at h; subst h; decide)
    (by intro c hc; simp at hc; subst hc; decide)
    (by intro _; simp) h2
  simpa [arrayRe] using h1

theorem pointerRe_match (b : List Char) (k : Nat) (hb : ∀ c ∈ b, isWordOrSpace c = true)
    (hne : b ≠ []) (hk : 1 ≤ k) :
    findAt pointerRe.atoms (b ++ List.replicate k '*') =
      some [b, [], List.replicate k '*'] := by
  apply findAt_of_matchHere
  have h3 : matchHere [⟨fun c => c == '*', Quant.plus⟩] (List.replicate k '*' ++ [])
      = some [List.replicate k '*'] :=
    matchHere_rep _ _ _ _ _ (by decide)
      (by intro c hc; rw [List.eq_of_mem_replicate hc]; decide)
      (by intro c hc; cases hc) (by intro _; simpa using hk) rfl
  rw [List.append_nil] at h3
  have hstar : ∀ c ∈ (List.replicate k '*').head?, c = '*' := by
    intro c hc
    cases k with
    | zero => omega
    | succ j => simp [List.replicate_succ] at hc; exact hc.symm
  have h2 := matchHere_rep ⟨isReSpace, Quant.star⟩ _ [] _ _ (by decide)
    (by intro c hc; cases hc) (by intro c hc; rw [hstar c hc]; decide)
    (by intro h; cases h) h3
  have h1 := matchHere_rep ⟨isWordOrSpace, Quant.plus⟩ _ b _ _ (by decide) hb
    (by intro c hc; rw [hstar c hc]; decide)
    (fun _ => List.length_pos.mpr hne) h2
  simpa [pointerRe] using h1

theorem eq_singleton_of_cls (c0 : Char) (sp : List Char)
    (h : ∀ c ∈ sp, (c == c0) = true) (hl : sp.length = 1) : sp = [c0] := by
  match sp, hl with
  | [x], _ =>
    have := h x (by simp)
    simp at this
    rw [this]

theorem spanOK_one (cls : Char → Bool) (c : Char) (h : cls c = true) :
    SpanOK ⟨cls, Quant.one⟩ [c] := by
  refine And.intro ?_ (And.intro (fun _ => rfl) (fun _ => by simp))
  intro x hx
  simp at hx
  subst hx
  exact h

theorem spanOK_star (cls : Char → Bool) (l : List Char) (h : ∀ c ∈ l, cls c = true) :
    SpanOK ⟨cls, Quant.star⟩ l :=
  And.intro h (And.intro (fun hq => by cases hq) (fun hq => by cases hq))

theorem spanOK_plus (cls : Char → Bool) (l : List Char) (h : ∀ c ∈ l, cls c = true)
    (hne : l ≠ []) : SpanOK ⟨cls, Quant.plus⟩ l :=
  And.intro h (And.intro (fun hq => by cases hq) (fun _ => List.length_pos.mpr hne))

theorem ne_nil_of_spanOK_plus (cls : Char → Bool) (l : List Char)
    (h : SpanOK ⟨cls, Quant.plus⟩ l) : l ≠ [] := by
  have := h.2.2 rfl
  intro h0
  rw [h0] at this
  simp at this

theorem arrayRe_isSome_iff (s : String) :
    (findAt arrayRe.atoms s.toList).isSome = true ↔ HasArrayForm s := by
  constructor
  · intro h
    obtain ⟨spans, hs⟩ := Option.isSome_iff_exists.mp h
    obtain ⟨pre, suf, hsplit, hm⟩ := findAt_sound _ _ _ hs
    obtain ⟨hf, t, ht⟩ := matchHere_sound _ _ _ hm
    simp only [arrayRe] at hf
    obtain ⟨s1, r1, h1, hf1, rfl⟩ := List.forall₂_cons_left_iff.mp hf
    obtain ⟨s2, r2, h2, hf2, rfl⟩ := List.forall₂_cons_left_iff.mp hf1
    obtain ⟨s3, r3, h3, hf3, rfl⟩ := List.forall₂_cons_left_iff.mp hf2
    obtain ⟨s4, r4, h4, hf4, rfl⟩ := List.forall₂_cons_left_iff.mp hf3
    obtain ⟨s5, r5, h5, hf5, rfl⟩ := List.forall₂_cons_left_iff.mp hf4
    have hnil := List.forall₂_nil_left_iff.mp hf5
    subst hnil
    have e3 := eq_singleton_of_cls '[' s3 h3.1 (h3.2.1 rfl)
    have e5 := eq_singleton_of_cls ']' s5 h5.1 (h5.2.1 rfl)
    subst e3 e5
    refine ⟨pre, s1, s2, s4, t, ?_, ne_nil_of_spanOK_plus _ _ h1, h1.1, h2.1,
      ne_nil_of_spanOK_plus _ _ h4, h4.1⟩
    rw [hsplit, ← ht]
    simp [List.flatten]
  · rintro ⟨pre, w, ws, ds, post, hs, hw, hwc, hwsc, hds, hdc⟩
    have hm : (matchHere arrayRe.atoms (w ++ ws ++ '[' :: ds ++ ']' :: post)).isSome = true := by
      apply matchHere_complete _ _ [w, ws, ['['], ds, [']']]
      · simp only [arrayRe]
        refine List.Forall₂.cons (spanOK_plus _ _ hwc hw) ?_
        refine List.Forall₂.cons (spanOK_star _ _ hwsc) ?_
        refine List.Forall₂.cons (spanOK_one _ _ (by decide)) ?_
        refine List.Forall₂.cons (spanOK_plus _ _ hdc hds) ?_
        refine List.Forall₂.cons (spanOK_one _ _ (by decide)) ?_
        exact List.Forall₂.nil
      · exact ⟨post, by simp [List.flatten]⟩
    have := findAt_complete arrayRe.atoms pre _ hm
    rw [hs]
    simpa [List.append_assoc] using this

theorem pointerRe_isSome_iff (s : String) :
    (findAt pointerRe.atoms s.toList).isSome = true ↔ HasPointerForm s := by
  constructor
  · intro h
    obtain ⟨spans, hs⟩ := Option.isSome_iff_exists.mp h
    obtain ⟨pre, suf, hsplit, hm⟩ := findAt_sound _ _ _ hs
    obtain ⟨hf, t, ht⟩ := matchHere_sound _ _ _ hm
    simp only [pointerRe] at hf
    obtain ⟨s1, r1, h1, hf1, rfl⟩ := List.forall₂_cons_left_iff.mp hf
    obtain ⟨s2, r2, h2, hf2, rfl⟩ := List.forall₂_cons_left_iff.mp hf1
    obtain ⟨s3, r3, h3, hf3, rfl⟩ := List.forall₂_cons_left_iff.mp hf2
    have hnil := List.forall₂_nil_left_iff.mp hf3
    subst hnil
    have hne := ne_nil_of_spanOK_plus _ _ h3
    obtain ⟨x, xs, rfl⟩ := List.exists_cons_of_ne_nil hne
    have hx := h3.1 x (by simp)
    simp only [beq_iff_eq] at hx
    subst hx
    refine ⟨pre, s1, s2, xs ++ t, ?_, ne_nil_of_spanOK_plus _ _ h1, h1.1, h2.1⟩
    rw [hsplit, ← ht]
    simp [List.flatten]
  · rintro ⟨pre, w, ws, post, hs, hw, hwc, hwsc⟩
    have hm : (matchHere pointerRe.atoms (w ++ ws ++ '*' :: post)).isSome = true := by
      apply matchHere_complete _ _ [w, ws, ['*']]
      · simp only [pointerRe]
        refine List.Forall₂.cons (spanOK_plus _ _ hwc hw) ?_
        refine List.Forall₂.cons (spanOK_star _ _ hwsc) ?_
        refine List.Forall₂.cons (spanOK_plus _ _ (by intro c hc; simp at hc; subst hc; decide)
          (by simp)) ?_
        exact List.Forall₂.nil
      · exact ⟨post, by simp [List.flatten]⟩
    have := findAt_complete pointerRe.atoms pre _ hm
    rw [hs]
    simpa [List.append_assoc] using this

theorem GetDereferenceType_of_array (s : String) (spans : List (List Char))
    (h : findAt arrayRe.atoms s.toList = some spans) :
    GetDereferenceType s = (TrimSpace (String.mk (spans.getD 0 [])), none) := by
  unfold GetDereferenceType FindStringSubmatch
  rw [h]
  rfl

theorem GetDereferenceType_of_pointer (s : String) (spans : List (List Char))
    (h1 : findAt arrayRe.atoms s.toList = none)
    (h2 : findAt pointerRe.atoms s.toList = some spans) :
    GetDereferenceType s =
      (TrimSpace (String.mk (spans.getD 0 []) ++
        sliceTo (String.mk (spans.getD 2 [])) ((spans.getD 2 []).length - 1)), none) := by
  unfold GetDereferenceType FindStringSubmatch
  rw [h1, h2]
  rfl

theorem GetDereferenceType_of_none (s : String)
    (h1 : findAt arrayRe.atoms s.toList = none)
    (h2 : findAt pointerRe.atoms s.toList = none) :
    GetDereferenceType s = ("", some s) := by
  unfold GetDereferenceType FindStringSubmatch
  rw [h1, h2]
  rfl

theorem trimSpaceChars_append_space (l : List Char) :
    trimSpaceChars (l ++ [' ']) = trimSpaceChars l := by
  unfold trimSpaceChars
  rw [List.reverse_append]
  have : isSpace ' ' = true := by decide
  simp [List.dropWhile, this]

theorem trimSpaceChars_sublist (l : List Char) : (trimSpaceChars l).Sublist l := by
  unfold trimSpaceChars
  refine (List.dropWhile_sublist _).trans ?_
  have h := (List.dropWhile_sublist isSpace (l := l.reverse)).reverse
  rwa [List.reverse_reverse] at h

theorem arrayRe_none_of_no_bracket (l : List Char) (h : '[' ∉ l) :
    findAt arrayRe.atoms l = none := by
  cases hf : findAt arrayRe.atoms l with
  | none => rfl
  | some spans =>
    exfalso
    have hsome : (findAt arrayRe.atoms (String.mk l).toList).isSome = true := by
      show (findAt arrayRe.atoms l).isSome = true
      rw [hf]; rfl
    obtain ⟨pre, w, ws, ds, post, hs, _⟩ := (arrayRe_isSome_iff _).mp hsome
    apply h
    have hs2 : l = pre ++ w ++ ws ++ '[' :: ds ++ ']' :: post := hs
    rw [hs2]
    simp

theorem pointerRe_none_of_no_star (l : List Char) (h : '*' ∉ l) :
    findAt pointerRe.atoms l = none := by
  cases hf : findAt pointerRe.atoms l with
  | none => rfl
  | some spans =>
    exfalso
    have hsome : (findAt pointerRe.atoms (String.mk l).toList).isSome = true := by
      show (findAt pointerRe.atoms l).isSome = true
      rw [hf]; rfl
    obtain ⟨pre, w, ws, post, hs, _⟩ := (pointerRe_isSome_iff _).mp hsome
    apply h
    have hs2 : l = pre ++ w ++ ws ++ '*' :: post := hs
    rw [hs2]
    simp

/-! ## The decay-type resolver: claims -/

/-- C1. For every base made only of word characters and spaces and every non-empty
string of decimal digits `N`, `GetDereferenceType (base ++ " [" ++ N ++ "]")` succeeds
(nil error) and returns `base` with leading and trailing white space removed. -/
theorem GetDereferenceType_array (base N : String)
    (hbase : ∀ c ∈ base.toList, isWordOrSpace c = true)
    (hN : N ≠ "") (hdigits : ∀ c ∈ N.toList, isDigit c = true) :
    GetDereferenceType (base ++ " [" ++ N ++ "]") = (TrimSpace base, none) := by
  have hn : N.toList ≠ [] := by
    intro h0
    apply hN
    cases N
    simp_all [String.toList]
  have hm := arrayRe_match base.toList N.toList hbase hn hdigits
  have hl : (base ++ " [" ++ N ++ "]").toList =
      base.toList ++ ' ' :: '[' :: (N.toList ++ [']']) := by
    simp [String.toList, String.data_append]
  rw [← hl] at hm
  rw [GetDereferenceType_of_array _ _ hm]
  simp [TrimSpace, String.toList, trimSpaceChars_append_space]

/-- Witness of C1: `"char [8]"` decays to `"char"`. -/
theorem GetDereferenceType_array_witness :
    GetDereferenceType ("char" ++ " [" ++ "8" ++ "]") = (TrimSpace "char", none) ∧
    GetDereferenceType "char [8]" = ("char", none) :=
  ⟨GetDereferenceType_array "char" "8" (by decide) (by decide) (by decide), by decide⟩

/-- C2. For every non-empty base made only of word characters and spaces and every
`k ≥ 1`, `GetDereferenceType (base ++ k stars)` succeeds and returns
`base ++ (k-1) stars` with leading and trailing white space removed; for `k = 1` the
result holds no `*`. -/
theorem GetDereferenceType_pointer (base : String) (k : Nat)
    (hne : base ≠ "") (hbase : ∀ c ∈ base.toList, isWordOrSpace c = true) (hk : 1 ≤ k) :
    GetDereferenceType (base ++ stars k) = (TrimSpace (base ++ stars (k - 1)), none) ∧
    (k = 1 → '*' ∉ (GetDereferenceType (base ++ stars k)).1.toList) := by
  have hb : base.toList ≠ [] := by
    intro h0
    apply hne
    cases base
    simp_all [String.toList]
  have hnostar : '*' ∉ base.toList := by
    intro hmem
    have := hbase _ hmem
    revert this
    decide
  have hl : (base ++ stars k).toList = base.toList ++ List.replicate k '*' := by
    simp [String.toList, String.data_append, stars]
  have h1 : findAt arrayRe.atoms (base ++ stars k).toList = none := by
    apply arrayRe_none_of_no_bracket
    rw [hl]
    intro hmem
    rcases List.mem_append.mp hmem with h | h
    · have := hbase _ h
      revert this
      decide
    · have := List.eq_of_mem_replicate h
      revert this
      decide
  have h2 := pointerRe_match base.toList k hbase hb hk
  rw [← hl] at h2
  have hres : GetDereferenceType (base ++ stars k) =
      (TrimSpace (base ++ stars (k - 1)), none) := by
    rw [GetDereferenceType_of_pointer _ _ h1 h2]
    simp [sliceTo, stars, String.toList, List.take_replicate]
  refine ⟨hres, ?_⟩
  intro hk1
  subst hk1
  rw [hres]
  intro hmem
  have hsub : (trimSpaceChars (base ++ stars 0).toList).Sublist (base ++ stars 0).toList :=
    trimSpaceChars_sublist _
  have hmem2 := hsub.subset hmem
  have h0 : (base ++ stars 0).toList = base.toList := by
    simp [String.toList, String.data_append, stars]
  rw [h0] at hmem2
  exact hnostar hmem2

/-- Witness of C2: `"char **"` decays to `"char *"` and `"int *"` to `"int"`. -/
theorem GetDereferenceType_pointer_witness :
    (GetDereferenceType ("char " ++ stars 2) = (TrimSpace ("char " ++ stars (2 - 1)), none) ∧
      (2 = 1 → '*' ∉ (GetDereferenceType ("char " ++ stars 2)).1.toList)) ∧
    GetDereferenceType "char **" = ("char *", none) ∧
    GetDereferenceType "int *" = ("int", none) :=
  ⟨GetDereferenceType_pointer "char " 2 (by decide) (by decide) (by decide),
    by decide, by decide⟩

theorem GetDereferenceType_cases (s : String) :
    ((HasArrayForm s ∨ HasPointerForm s) ∧ (GetDereferenceType s).2 = none) ∨
    ((¬ HasArrayForm s ∧ ¬ HasPointerForm s) ∧ GetDereferenceType s = ("", some s)) := by
  cases h1 : findAt arrayRe.atoms s.toList with
  | some spans =>
    left
    refine ⟨Or.inl ((arrayRe_isSome_iff s).mp (by rw [h1]; rfl)), ?_⟩
    rw [GetDereferenceType_of_array s spans h1]
  | none =>
    have hna : ¬ HasArrayForm s := by
      intro h
      have := (arrayRe_isSome_iff s).mpr h
      rw [h1] at this
      cases this
    cases h2 : findAt pointerRe.atoms s.toList with
    | some spans =>
      left
      refine ⟨Or.inr ((pointerRe_isSome_iff s).mp (by rw [h2]; rfl)), ?_⟩
      rw [GetDereferenceType_of_pointer s spans h1 h2]
    | none =>
      right
      refine ⟨⟨hna, ?_⟩, GetDereferenceType_of_none s h1 h2⟩
      intro h
      have := (pointerRe_isSome_iff s).mpr h
      rw [h2] at this
      cases this

/-- C3, as the code has it.  `GetDereferenceType` fails exactly on the type strings in
which neither pattern occurs anywhere: no character of `[\w ]` is followed, after
optional white space, by `[digits]` or by `*`.  In particular it fails on every
string with no `[` and no `*`.  Whenever it fails it returns the empty string
together with an error whose message is the input string. -/
theorem GetDereferenceType_error (s : String) :
    (GetDereferenceType s = ("", some s) ↔ ¬ HasArrayForm s ∧ ¬ HasPointerForm s) ∧
    ((∀ c ∈ s.toList, c ≠ '[' ∧ c ≠ '*') → GetDereferenceType s = ("", some s)) ∧
    ((GetDereferenceType s).2 ≠ none → GetDereferenceType s = ("", some s)) := by
  refine ⟨⟨?_, ?_⟩, ?_, ?_⟩
  · intro h
    rcases GetDereferenceType_cases s with ⟨_, h2⟩ | ⟨h1, _⟩
    · rw [h] at h2
      cases h2
    · exact h1
  · intro h
    rcases GetDereferenceType_cases s with ⟨h1, _⟩ | ⟨_, h2⟩
    · rcases h1 with h1 | h1
      · exact absurd h1 h.1
      · exact absurd h1 h.2
    · exact h2
  · intro h
    exact GetDereferenceType_of_none s
      (arrayRe_none_of_no_bracket _ (fun hm => (h _ hm).1 rfl))
      (pointerRe_none_of_no_star _ (fun hm => (h _ hm).2 rfl))
  · intro h
    rcases GetDereferenceType_cases s with ⟨_, h2⟩ | ⟨_, h2⟩
    · exact absurd h2 h
    · exact h2

/-- Witness of C3: `"int"` has no `[` and no `*`, and fails with the error `"int"`. -/
theorem GetDereferenceType_error_witness :
    GetDereferenceType "int" = ("", some "int") :=
  (GetDereferenceType_error "int").2.1 (by decide)

/-- Counterexample to C3 as stated: `"char *const"` ends neither in an array length
nor in a star, and `GetDereferenceType` succeeds on it, with `"char"`. -/
theorem GetDereferenceType_error_counterexample :
    hasArrayLengthSuffix "char *const" = false ∧
    hasPointerStarSuffix "char *const" = false ∧
    GetDereferenceType "char *const" = ("char", none) := by
  decide

/-! ## The allocation-call recognizer: lemmas and claims -/

theorem allocationLoop_skip (getName : Node → String × Option GoError) :
    ∀ (pre rest : List Node), (∀ e ∈ pre, isOtherCall getName e = true) →
      allocationLoop getName (pre ++ rest) = allocationLoop getName rest := by
  intro pre
  induction pre with
  | nil => intro rest _; rfl
  | cons e pre ih =>
    intro rest h
    have he := h e (by simp)
    have hrest := ih rest (fun x hx => h x (by simp [hx]))
    cases e with
    | CallExpr a p t cs =>
      simp only [isOtherCall, decide_eq_true_eq] at he
      simp only [List.cons_append, allocationLoop, he.1, he.2.1, he.2.2, if_false]
      exact hrest
    | BinaryOperator a p t o cs => simp [isOtherCall] at he
    | OffsetOfExpr a p t cs => simp [isOtherCall] at he
    | Other k n t cs => simp [isOtherCall] at he

theorem allocationLoop_stop (getName : Node → String × Option GoError) (c : Node)
    (post post2 : List Node) (hc : isAllocationCall getName c = true) :
    allocationLoop getName (c :: post) = allocationLoop getName (c :: post2) := by
  cases c with
  | CallExpr a p t cs =>
    simp only [isAllocationCall, decide_eq_true_eq] at hc
    simp only [allocationLoop]
    by_cases h1 : (getName (Node.CallExpr a p t cs)).1 = "malloc"
    · simp only [h1, if_true]
    · by_cases h2 : (getName (Node.CallExpr a p t cs)).1 = "calloc"
      · simp only [h1, h2, if_true, if_false]
      · by_cases h3 : (getName (Node.CallExpr a p t cs)).1 = "realloc"
        · simp only [h1, h2, h3, if_true, if_false]
        · rcases hc with h | h | h
          · exact absurd h h1
          · exact absurd h h2
          · exact absurd h h3
  | BinaryOperator a p t o cs => simp [isAllocationCall] at hc
  | OffsetOfExpr a p t cs => simp [isAllocationCall] at hc
  | Other k n t cs => simp [isAllocationCall] at hc

/-- C4. When the first allocation call among the collected calls is a call named
`malloc` with children `callee :: X :: _`, `GetAllocationSizeNode` returns the child
at index 1, `X`, unchanged. -/
theorem GetAllocationSizeNode_malloc (getAll : Node → NodeType → List Node)
    (getName : Node → String × Option GoError) (node : Node) (pre post : List Node)
    (a p t : String) (callee X : Node) (args : List Node)
    (hcollected : getAll node NodeType.CallExpr =
      pre ++ Node.CallExpr a p t (callee :: X :: args) :: post)
    (hpre : ∀ e ∈ pre, isOtherCall getName e = true)
    (hname : (getName (Node.CallExpr a p t (callee :: X :: args))).1 = "malloc") :
    GetAllocationSizeNode getAll getName node = Res.ok (some X) := by
  unfold GetAllocationSizeNode
  simp only [hcollected]
  rw [allocationLoop_skip getName pre _ hpre]
  simp [allocationLoop, hname]

/-- Witness of C4: in `foo(malloc(8), calloc(2, 4))` the call of `foo` is stepped
over and the size node is the argument `8` of `malloc`. -/
theorem GetAllocationSizeNode_malloc_witness :
    GetAllocationSizeNode GetAllNodesOfType getNameOfFunctionFromCallExpr nestedCalls =
      Res.ok (some (intLit "8")) :=
  GetAllocationSizeNode_malloc GetAllNodesOfType getNameOfFunctionFromCallExpr nestedCalls
    [nestedCalls]
    [callOf "calloc" "void *" [intLit "2", intLit "4"]]
    "" "" "void *" (Node.Other "ImplicitCastExpr" "" "" [declRef "malloc" ""])
    (intLit "8") [] (by rfl) (by decide) (by decide)

/-- C5. When the first allocation call among the collected calls is a call named
`calloc` with exactly two arguments `A` and `B`, `GetAllocationSizeNode` returns a new
`BinaryOperator` node of type `"int"`, operator `"*"`, whose children are exactly
`[A, B]`, whatever the types of `A` and `B`. -/
theorem GetAllocationSizeNode_calloc (getAll : Node → NodeType → List Node)
    (getName : Node → String × Option GoError) (node : Node) (pre post : List Node)
    (a p t : String) (callee A B : Node)
    (hcollected : getAll node NodeType.CallExpr =
      pre ++ Node.CallExpr a p t [callee, A, B] :: post)
    (hpre : ∀ e ∈ pre, isOtherCall getName e = true)
    (hname : (getName (Node.CallExpr a p t [callee, A, B])).1 = "calloc") :
    GetAllocationSizeNode getAll getName node =
      Res.ok (some (Node.BinaryOperator "" "" "int" "*" [A, B])) := by
  unfold GetAllocationSizeNode
  simp only [hcollected]
  rw [allocationLoop_skip getName pre _ hpre]
  simp [allocationLoop, hname]

/-- Witness of C5: in `bar(calloc(2, 4), malloc(8))` the size node is the new product
node over `2` and `4`. -/
theorem GetAllocationSizeNode_calloc_witness :
    GetAllocationSizeNode GetAllNodesOfType getNameOfFunctionFromCallExpr callocFirst =
      Res.ok (some (Node.BinaryOperator "" "" "int" "*" [intLit "2", intLit "4"])) :=
  GetAllocationSizeNode_calloc GetAllNodesOfType getNameOfFunctionFromCallExpr callocFirst
    [callocFirst] [callOf "malloc" "void *" [intLit "8"]]
    "" "" "void *" (Node.Other "ImplicitCastExpr" "" "" [declRef "calloc" ""])
    (intLit "2") (intLit "4") (by rfl) (by decide) (by decide)

/-- C6. When the first allocation call among the collected calls is a call named
`realloc` with children `callee :: ptr :: size :: _`, `GetAllocationSizeNode` returns
the child at index 2, the size argument. -/
theorem GetAllocationSizeNode_realloc (getAll : Node → NodeType → List Node)
    (getName : Node → String × Option GoError) (node : Node) (pre post : List Node)
    (a p t : String) (callee ptr size : Node) (args : List Node)
    (hcollected : getAll node NodeType.CallExpr =
      pre ++ Node.CallExpr a p t (callee :: ptr :: size :: args) :: post)
    (hpre : ∀ e ∈ pre, isOtherCall getName e = true)
    (hname : (getName (Node.CallExpr a p t (callee :: ptr :: size :: args))).1 = "realloc") :
    GetAllocationSizeNode getAll getName node = Res.ok (some size) := by
  unfold GetAllocationSizeNode
  simp only [hcollected]
  rw [allocationLoop_skip getName pre _ hpre]
  simp [allocationLoop, hname]

/-- Witness of C6: for `realloc(p, 16)` the size node is `16`, not `p`. -/
theorem GetAllocationSizeNode_realloc_witness :
    GetAllocationSizeNode GetAllNodesOfType getNameOfFunctionFromCallExpr reallocCall =
      Res.ok (some (intLit "16")) :=
  GetAllocationSizeNode_realloc GetAllNodesOfType getNameOfFunctionFromCallExpr reallocCall
    [] [] "" "" "void *" (Node.Other "ImplicitCastExpr" "" "" [declRef "realloc" ""])
    (declRef "p" "int *") (intLit "16") [] (by rfl) (by decide) (by decide)

/-- C7. The result of `GetAllocationSizeNode` is decided by the first collected call
named `malloc`, `calloc` or `realloc`.  When the collected list is `pre`, then that
call, then `post`, with only calls of other names in `pre`, the result is: for
`malloc` the child at index 1; for `calloc` the new `"*"` node of type `"int"` over the
children from index 1 on; for `realloc` the child at index 2 (a panic where the call
has too few children).  Neither `pre` nor `post`, whatever calls `post` holds, takes
part in it.  When every collected node is a call of another name the result is nil. -/
theorem GetAllocationSizeNode_first_match (getAll : Node → NodeType → List Node)
    (getName : Node → String × Option GoError) (node : Node) :
    (∀ (pre post : List Node) (a p t : String) (children : List Node),
        getAll node NodeType.CallExpr = pre ++ Node.CallExpr a p t children :: post →
        (∀ e ∈ pre, isOtherCall getName e = true) →
        ((getName (Node.CallExpr a p t children)).1 = "malloc" →
          GetAllocationSizeNode getAll getName node =
            (match children.get? 1 with
              | some x => Res.ok (some x)
              | none => Res.panic)) ∧
        ((getName (Node.CallExpr a p t children)).1 = "calloc" →
          GetAllocationSizeNode getAll getName node =
            (if 1 ≤ children.length then
              Res.ok (some (Node.BinaryOperator "" "" "int" "*" (children.drop 1)))
            else Res.panic)) ∧
        ((getName (Node.CallExpr a p t children)).1 = "realloc" →
          GetAllocationSizeNode getAll getName node =
            (match children.get? 2 with
              | some x => Res.ok (some x)
              | none => Res.panic))) ∧
    ((∀ e ∈ getAll node NodeType.CallExpr, isOtherCall getName e = true) →
        GetAllocationSizeNode getAll getName node = Res.ok none) := by
  constructor
  · intro pre post a p t children hcollected hpre
    have hloop : GetAllocationSizeNode getAll getName node =
        allocationLoop getName (Node.CallExpr a p t children :: post) := by
      unfold GetAllocationSizeNode
      simp only [hcollected]
      exact allocationLoop_skip getName pre _ hpre
    refine ⟨?_, ?_, ?_⟩
    · intro hname
      rw [hloop]
      simp [allocationLoop, hname]
    · intro hname
      rw [hloop]
      simp [allocationLoop, hname]
    · intro hname
      rw [hloop]
      simp [allocationLoop, hname]
  · intro hall
    unfold GetAllocationSizeNode
    have h := allocationLoop_skip getName (getAll node NodeType.CallExpr) [] hall
    rw [List.append_nil] at h
    simp only [h]
    rfl

/-- Witness of C7: in `foo(malloc(8), calloc(2, 4))` the call of `foo` is stepped over
and the nested `malloc`, collected before `calloc`, decides: the result is `8`.  In
`bar(calloc(2, 4), malloc(8))` the `calloc` comes first and the result is the new
product node.  In `foo(x)` there is no allocation call and the result is nil. -/
theorem GetAllocationSizeNode_first_match_witness :
    GetAllocationSizeNode GetAllNodesOfType getNameOfFunctionFromCallExpr nestedCalls =
      Res.ok (some (intLit "8")) ∧
    GetAllocationSizeNode GetAllNodesOfType getNameOfFunctionFromCallExpr callocFirst =
      Res.ok (some (Node.BinaryOperator "" "" "int" "*" [intLit "2", intLit "4"])) ∧
    GetAllocationSizeNode GetAllNodesOfType getNameOfFunctionFromCallExpr
      (callOf "foo" "int" [declRef "x" "int"]) = Res.ok none :=
  ⟨((GetAllocationSizeNode_first_match GetAllNodesOfType getNameOfFunctionFromCallExpr
      nestedCalls).1 [nestedCalls] [callOf "calloc" "void *" [intLit "2", intLit "4"]]
      "" "" "void *"
      [Node.Other "ImplicitCastExpr" "" "" [declRef "malloc" ""], intLit "8"]
      (by rfl) (by decide)).1 (by decide),
   ((GetAllocationSizeNode_first_match GetAllNodesOfType getNameOfFunctionFromCallExpr
      callocFirst).1 [callocFirst] [callOf "malloc" "void *" [intLit "8"]]
      "" "" "void *"
      [Node.Other "ImplicitCastExpr" "" "" [declRef "calloc" ""], intLit "2", intLit "4"]
      (by rfl) (by decide)).2.1 (by decide),
   (GetAllocationSizeNode_first_match GetAllNodesOfType getNameOfFunctionFromCallExpr
      (callOf "foo" "int" [declRef "x" "int"])).2 (by decide)⟩

/-! ## The binary-operator transpiler: lemmas and claims -/

theorem getTokenForOperator_assign : getTokenForOperator "=" = some Token.ASSIGN := by
  decide

theorem getTokenForOperator_land : getTokenForOperator "&&" = some Token.LAND := by
  decide

/-- C8. For a plain assignment whose right operand yields the size node `S`, when both
operands and `S` transpile and the decay of the left type, `ResolveType` of the left
type and `SizeOf` of the decayed type succeed, `transpileBinaryOperator` returns
`left = make(T, sizeExpr / e)`: `left` the transpiled left operand, `T` the literal
`ResolveType(leftType)`, `sizeExpr` the transpiled `S`, `e` the integer literal
`SizeOf(GetDereferenceType(leftType))`.  The transpiled right operand is not part of
the expression. -/
theorem transpileBinaryOperator_allocation {P : Type} (env : Env P) (n : BinaryOperator)
    (p p1 p2 p3 : P) (child0 child1 S : Node) (rest : List Node) (l r a : ExprResult)
    (d T : String) (e : Int)
    (hop : n.Operator = "=")
    (hchildren : n.Children = child0 :: child1 :: rest)
    (hleft : env.transpileToExpr child0 p = (l, p1)) (hlerr : l.err = none)
    (hright : env.transpileToExpr child1 p1 = (r, p2)) (hrerr : r.err = none)
    (hsize : GetAllocationSizeNode env.GetAllNodesOfType env.getNameOfFunctionFromCallExpr
      child1 = Res.ok (some S))
    (halloc : env.transpileToExpr S p2 = (a, p3)) (haerr : a.err = none)
    (hdecay : GetDereferenceType l.ctype = (d, none))
    (hresolve : env.ResolveType p3 l.ctype = (T, none))
    (hsizeof : env.SizeOf p3 d = (e, none)) :
    transpileBinaryOperator env n p =
      Res.ok (⟨some (GoExpr.BinaryExpr l.expr Token.ASSIGN
          (some (GoExpr.CallExpr (some (GoExpr.Ident "make"))
            [some (GoExpr.BasicLit Token.STRING T),
             some (GoExpr.BinaryExpr a.expr Token.QUO
               (some (GoExpr.BasicLit Token.INT (toString e))))]))),
        env.ResolveTypeForBinaryOperator p3 "=" l.ctype r.ctype,
        l.preStmts ++ r.preStmts ++ a.preStmts,
        l.postStmts ++ r.postStmts ++ a.postStmts, none⟩, p3) := by
  unfold transpileBinaryOperator
  simp only [hchildren, List.get?, hleft, hlerr, hright, hrerr, hop,
    getTokenForOperator_assign, combinePreAndPostStmts, hsize, halloc, haerr, hdecay,
    hresolve, hsizeof, binaryReturn, NewBinaryExpr, NewCallExpr, NewStringLit, NewIntLit,
    NewIdent, List.nil_append]
  simp

/-- Witness of C8: `a = (int *)malloc(n * 4)` with `a` of type `int *` and
`SizeOf("int") = 4` gives `a = make([]int, (n * 4) / 4)`. -/
theorem transpileBinaryOperator_allocation_witness :
    transpileBinaryOperator exampleEnv mallocAssign Program.empty =
      Res.ok (⟨some (GoExpr.BinaryExpr (some (GoExpr.Ident "a")) Token.ASSIGN
          (some (GoExpr.CallExpr (some (GoExpr.Ident "make"))
            [some (GoExpr.BasicLit Token.STRING "[]int"),
             some (GoExpr.BinaryExpr
               (some (GoExpr.BinaryExpr (some (GoExpr.Ident "n")) Token.MUL
                 (some (GoExpr.BasicLit Token.INT "4"))))
               Token.QUO (some (GoExpr.BasicLit Token.INT "4")))]))),
        "int *", [], [], none⟩, Program.empty) :=
  transpileBinaryOperator_allocation exampleEnv mallocAssign Program.empty Program.empty
    Program.empty Program.empty (declRef "a" "int *")
    (Node.Other "CStyleCastExpr" "" "int *"
      [callOf "malloc" "void *"
        [Node.BinaryOperator "" "" "int" "*" [declRef "n" "int", intLit "4"]]])
    (Node.BinaryOperator "" "" "int" "*" [declRef "n" "int", intLit "4"]) []
    ⟨some (GoExpr.Ident "a"), "int *", [], [], none⟩
    ⟨some (GoExpr.Other "CStyleCastExpr"), "int *", [], [], none⟩
    ⟨some (GoExpr.BinaryExpr (some (GoExpr.Ident "n")) Token.MUL
      (some (GoExpr.BasicLit Token.INT "4"))), "int", [], [], none⟩
    "int" "[]int" 4 (by rfl) (by rfl) (by rfl) (by rfl) (by rfl) (by rfl) (by rfl) (by rfl)
    (by rfl) (by decide) (by rfl) (by rfl)

theorem mem_of_lookup (k : String) (v : Token) :
    ∀ (l : List (String × Token)), l.lookup k = some v → (k, v) ∈ l := by
  intro l
  induction l with
  | nil => intro h; cases h
  | cons e l ih =>
    intro h
    obtain ⟨k2, v2⟩ := e
    rw [List.lookup_cons] at h
    by_cases hk : k = k2
    · subst hk
      simp only [beq_self_eq_true] at h
      cases h
      exact List.mem_cons_self _ _
    · have hb : (k == k2) = false := by simpa using hk
      rw [hb] at h
      exact List.mem_cons_of_mem _ (ih h)

theorem getTokenForOperator_eq_land (s : String)
    (h : getTokenForOperator s = some Token.LAND) : s = "&&" := by
  have hall : ∀ e ∈ operatorTable, e.2 = Token.LAND → e.1 = "&&" := by decide
  exact hall _ (mem_of_lookup _ _ _ h) rfl

theorem getTokenForOperator_eq_assign (s : String)
    (h : getTokenForOperator s = some Token.ASSIGN) : s = "=" := by
  have hall : ∀ e ∈ operatorTable, e.2 = Token.ASSIGN → e.1 = "=" := by decide
  exact hall _ (mem_of_lookup _ _ _ h) rfl

theorem getTokenForOperator_eq_eql (s : String)
    (h : getTokenForOperator s = some Token.EQL) : s = "==" := by
  have hall : ∀ e ∈ operatorTable, e.2 = Token.EQL → e.1 = "==" := by decide
  exact hall _ (mem_of_lookup _ _ _ h) rfl

theorem getTokenForOperator_eq_neq (s : String)
    (h : getTokenForOperator s = some Token.NEQ) : s = "!=" := by
  have hall : ∀ e ∈ operatorTable, e.2 = Token.NEQ → e.1 = "!=" := by decide
  exact hall _ (mem_of_lookup _ _ _ h) rfl

/-- C9. For a node whose operator is `&&` and whose two operands transpile,
`transpileBinaryOperator` returns with a nil error, the result type `"bool"` whatever
the operand types, and the expression `L && R`, where `L` (resp. `R`) is what
`CastExpr` makes of the left (resp. right) operand for the target type `"bool"`, or
the literal `nil` when that cast yields no expression. -/
theorem transpileBinaryOperator_logical_and {P : Type} (env : Env P) (n : BinaryOperator)
    (p p1 p2 : P) (child0 child1 : Node) (rest : List Node) (l r : ExprResult)
    (cl cr : Option GoExpr) (el er : Option GoError)
    (hop : n.Operator = "&&")
    (hchildren : n.Children = child0 :: child1 :: rest)
    (hleft : env.transpileToExpr child0 p = (l, p1)) (hlerr : l.err = none)
    (hright : env.transpileToExpr child1 p1 = (r, p2)) (hrerr : r.err = none)
    (hcastl : env.CastExpr p2 l.expr l.ctype "bool" = (cl, el))
    (hcastr : env.CastExpr (env.WarningOrError el n.toNode cl.isNone p2) r.expr r.ctype
      "bool" = (cr, er)) :
    transpileBinaryOperator env n p =
      Res.ok (⟨some (GoExpr.BinaryExpr
          (if cl.isNone then some (GoExpr.BasicLit Token.STRING "nil") else cl)
          Token.LAND
          (if cr.isNone then some (GoExpr.BasicLit Token.STRING "nil") else cr)),
        "bool", l.preStmts ++ r.preStmts, l.postStmts ++ r.postStmts, none⟩,
        env.WarningOrError er n.toNode cr.isNone
          (env.WarningOrError el n.toNode cl.isNone p2)) := by
  unfold transpileBinaryOperator
  simp only [hchildren, List.get?, hleft, hlerr, hright, hrerr, hop,
    getTokenForOperator_land, combinePreAndPostStmts, hcastl, hcastr, NewBinaryExpr,
    NewStringLit, List.nil_append]
  simp

/-- Witness of C9: `x && s` with `x` an `int` and `s` of a type that has no cast to
`bool` gives `(x != 0) && nil` of type `"bool"`, with one diagnostic recorded. -/
theorem transpileBinaryOperator_logical_and_witness :
    transpileBinaryOperator exampleEnv (binaryOf "&&" "x" "int" "s" "struct S")
        Program.empty =
      Res.ok (⟨some (GoExpr.BinaryExpr
          (some (GoExpr.BinaryExpr (some (GoExpr.Ident "x")) Token.NEQ
            (some (GoExpr.BasicLit Token.INT "0"))))
          Token.LAND (some (GoExpr.BasicLit Token.STRING "nil"))),
        "bool", [], [], none⟩,
        { imports := [], warnings := ["cannot cast struct S to bool"] }) :=
  transpileBinaryOperator_logical_and exampleEnv (binaryOf "&&" "x" "int" "s" "struct S")
    Program.empty Program.empty Program.empty (declRef "x" "int") (declRef "s" "struct S") []
    ⟨some (GoExpr.Ident "x"), "int", [], [], none⟩
    ⟨some (GoExpr.Ident "s"), "struct S", [], [], none⟩
    (some (GoExpr.BinaryExpr (some (GoExpr.Ident "x")) Token.NEQ
      (some (GoExpr.BasicLit Token.INT "0")))) none none
    (some "cannot cast struct S to bool")
    (by rfl) (by rfl) (by rfl) (by rfl) (by rfl) (by rfl) (by rfl) (by rfl)

/-- C10, as the code has it.  For a node whose operator is in the table and is neither
`&&` nor `=`, and whose operands transpile, the emitted expression is `left op Y`
with `left` the transpiled left operand unchanged; `Y` is the identifier `nil` when
the operator is `==` or `!=` and `IsNullExpr` holds of the transpiled right operand,
and is the transpiled right operand unchanged in every other case.  Hence `Y` is the
identifier `nil` exactly when that replacement applies or the transpiled right
operand already is the identifier `nil`. -/
theorem transpileBinaryOperator_null_comparison {P : Type} (env : Env P)
    (n : BinaryOperator) (p p1 p2 : P) (child0 child1 : Node) (rest : List Node)
    (l r : ExprResult) (tok : Token)
    (htok : getTokenForOperator n.Operator = some tok)
    (hand : n.Operator ≠ "&&") (hassign : n.Operator ≠ "=")
    (hchildren : n.Children = child0 :: child1 :: rest)
    (hleft : env.transpileToExpr child0 p = (l, p1)) (hlerr : l.err = none)
    (hright : env.transpileToExpr child1 p1 = (r, p2)) (hrerr : r.err = none) :
    transpileBinaryOperator env n p =
      Res.ok (⟨some (GoExpr.BinaryExpr l.expr tok
          (if (n.Operator = "==" ∨ n.Operator = "!=") ∧ env.IsNullExpr r.expr = true
            then some (GoExpr.Ident "nil") else r.expr)),
        env.ResolveTypeForBinaryOperator p2 n.Operator l.ctype r.ctype,
        l.preStmts ++ r.preStmts, l.postStmts ++ r.postStmts, none⟩, p2) ∧
    ((if (n.Operator = "==" ∨ n.Operator = "!=") ∧ env.IsNullExpr r.expr = true
        then some (GoExpr.Ident "nil") else r.expr) = some (GoExpr.Ident "nil") ↔
      ((n.Operator = "==" ∨ n.Operator = "!=") ∧ env.IsNullExpr r.expr = true) ∨
        r.expr = some (GoExpr.Ident "nil")) := by
  have hland : tok ≠ Token.LAND := by
    intro h
    rw [h] at htok
    exact hand (getTokenForOperator_eq_land _ htok)
  have hasg : tok ≠ Token.ASSIGN := by
    intro h
    rw [h] at htok
    exact hassign (getTokenForOperator_eq_assign _ htok)
  have hcond : (tok = Token.NEQ ∨ tok = Token.EQL) ↔
      (n.Operator = "==" ∨ n.Operator = "!=") := by
    constructor
    · rintro (h | h)
      · rw [h] at htok
        exact Or.inr (getTokenForOperator_eq_neq _ htok)
      · rw [h] at htok
        exact Or.inl (getTokenForOperator_eq_eql _ htok)
    · rintro (h | h)
      · rw [h] at htok
        right
        have : some Token.EQL = some tok := htok
        exact (Option.some.inj this).symm
      · rw [h] at htok
        left
        have : some Token.NEQ = some tok := htok
        exact (Option.some.inj this).symm
  constructor
  · unfold transpileBinaryOperator
    simp only [hchildren, List.get?, hleft, hlerr, hright, hrerr, htok,
      combinePreAndPostStmts, hland, hasg, if_false, binaryReturn, NewBinaryExpr, NewIdent,
      hcond, List.nil_append]
  · by_cases hc : (n.Operator = "==" ∨ n.Operator = "!=") ∧ env.IsNullExpr r.expr = true
    · simp [hc]
    · simp [hc]

/-- Witness of C10: `p == NULL` gives `p == nil`, the right operand replaced. -/
theorem transpileBinaryOperator_null_comparison_witness :
    transpileBinaryOperator exampleEnv
        { Address := "", Position := "", Type_ := "int", Operator := "==",
          Children := [declRef "p" "int *", Node.Other "NullExpr" "" "int" []] }
        Program.empty =
      Res.ok (⟨some (GoExpr.BinaryExpr (some (GoExpr.Ident "p")) Token.EQL
          (some (GoExpr.Ident "nil"))), "bool", [], [], none⟩, Program.empty) :=
  (transpileBinaryOperator_null_comparison exampleEnv
    { Address := "", Position := "", Type_ := "int", Operator := "==",
      Children := [declRef "p" "int *", Node.Other "NullExpr" "" "int" []] }
    Program.empty Program.empty Program.empty (declRef "p" "int *")
    (Node.Other "NullExpr" "" "int" []) []
    ⟨some (GoExpr.Ident "p"), "int *", [], [], none⟩
    ⟨some (GoExpr.ParenExpr (some (GoExpr.BasicLit Token.INT "0"))), "int", [], [], none⟩
    Token.EQL (by rfl) (by decide) (by decide) (by rfl) (by rfl) (by rfl) (by rfl)
    (by rfl)).1

/-- Counterexample to C10 as stated: in `p < nil`, with `nil` the name of a C
variable, the right operand of the emitted expression is the identifier `nil`,
although the operator is neither `==` nor `!=` and `IsNullExpr` does not hold of the
transpiled right operand. -/
theorem transpileBinaryOperator_null_comparison_counterexample :
    transpileBinaryOperator exampleEnv (binaryOf "<" "p" "int *" "nil" "int *")
        Program.empty =
      Res.ok (⟨some (GoExpr.BinaryExpr (some (GoExpr.Ident "p")) Token.LSS
          (some (GoExpr.Ident "nil"))), "bool", [], [], none⟩, Program.empty) ∧
    (binaryOf "<" "p" "int *" "nil" "int *").Operator ≠ "==" ∧
    (binaryOf "<" "p" "int *" "nil" "int *").Operator ≠ "!=" ∧
    exampleEnv.IsNullExpr (some (GoExpr.Ident "nil")) = false :=
  ⟨by rfl, by decide, by decide, by rfl⟩

/-! ## The decay-type resolver: shape of a successful result -/

theorem arrayRe_spans (l : List Char) (spans : List (List Char))
    (h : findAt arrayRe.atoms l = some spans) :
    ∃ pre g ws ds post : List Char,
      spans = [g, ws, ['['], ds, [']']] ∧ l = pre ++ g ++ ws ++ '[' :: ds ++ ']' :: post ∧
      g ≠ [] ∧ (∀ c ∈ g, isWordOrSpace c = true) ∧ (∀ c ∈ ws, isReSpace c = true) ∧
      ds ≠ [] ∧ (∀ c ∈ ds, isDigit c = true) := by
  obtain ⟨pre, suf, hsplit, hm⟩ := findAt_sound _ _ _ h
  obtain ⟨hf, t, ht⟩ := matchHere_sound _ _ _ hm
  simp only [arrayRe] at hf
  obtain ⟨s1, r1, h1, hf1, rfl⟩ := List.forall₂_cons_left_iff.mp hf
  obtain ⟨s2, r2, h2, hf2, rfl⟩ := List.forall₂_cons_left_iff.mp hf1
  obtain ⟨s3, r3, h3, hf3, rfl⟩ := List.forall₂_cons_left_iff.mp hf2
  obtain ⟨s4, r4, h4, hf4, rfl⟩ := List.forall₂_cons_left_iff.mp hf3
  obtain ⟨s5, r5, h5, hf5, rfl⟩ := List.forall₂_cons_left_iff.mp hf4
  have hnil := List.forall₂_nil_left_iff.mp hf5
  subst hnil
  have e3 := eq_singleton_of_cls '[' s3 h3.1 (h3.2.1 rfl)
  have e5 := eq_singleton_of_cls ']' s5 h5.1 (h5.2.1 rfl)
  subst e3 e5
  refine ⟨pre, s1, s2, s4, t, rfl, ?_, ne_nil_of_spanOK_plus _ _ h1, h1.1, h2.1,
    ne_nil_of_spanOK_plus _ _ h4, h4.1⟩
  rw [hsplit, ← ht]
  simp [List.flatten]

theorem pointerRe_spans (l : List Char) (spans : List (List Char))
    (h : findAt pointerRe.atoms l = some spans) :
    ∃ (pre g ws post : List Char) (k : Nat),
      spans = [g, ws, List.replicate k '*'] ∧ 1 ≤ k ∧
      l = pre ++ g ++ ws ++ List.replicate k '*' ++ post ∧
      g ≠ [] ∧ (∀ c ∈ g, isWordOrSpace c = true) ∧ (∀ c ∈ ws, isReSpace c = true) := by
  obtain ⟨pre, suf, hsplit, hm⟩ := findAt_sound _ _ _ h
  obtain ⟨hf, t, ht⟩ := matchHere_sound _ _ _ hm
  simp only [pointerRe] at hf
  obtain ⟨s1, r1, h1, hf1, rfl⟩ := List.forall₂_cons_left_iff.mp hf
  obtain ⟨s2, r2, h2, hf2, rfl⟩ := List.forall₂_cons_left_iff.mp hf1
  obtain ⟨s3, r3, h3, hf3, rfl⟩ := List.forall₂_cons_left_iff.mp hf2
  have hnil := List.forall₂_nil_left_iff.mp hf3
  subst hnil
  have hrep : s3 = List.replicate s3.length '*' := by
    apply List.eq_replicate_iff.mpr
    refine ⟨rfl, ?_⟩
    intro c hc
    have := h3.1 c hc
    simpa using this
  refine ⟨pre, s1, s2, t, s3.length, ?_, h3.2.2 rfl, ?_, ne_nil_of_spanOK_plus _ _ h1,
    h1.1, h2.1⟩
  · rw [← hrep]
  · rw [← hrep, hsplit, ← ht]
    simp [List.flatten]

/-- A successful result comes from an occurrence of the array pattern, as the
trimmed text of its base, or from an occurrence of the pointer pattern, as the
trimmed text of its base and all but one of its stars. -/
theorem GetDereferenceType_shape (s r : String) (h : GetDereferenceType s = (r, none)) :
    (∃ pre g ws ds post : List Char,
      s.toList = pre ++ g ++ ws ++ '[' :: ds ++ ']' :: post ∧
      (∀ c ∈ g, isWordOrSpace c = true) ∧ ds ≠ [] ∧ (∀ c ∈ ds, isDigit c = true) ∧
      r = String.mk (trimSpaceChars g)) ∨
    (∃ (pre g ws post : List Char) (k : Nat), 1 ≤ k ∧
      s.toList = pre ++ g ++ ws ++ List.replicate k '*' ++ post ∧
      (∀ c ∈ g, isWordOrSpace c = true) ∧
      r = String.mk (trimSpaceChars (g ++ List.replicate (k - 1) '*'))) := by
  cases h1 : findAt arrayRe.atoms s.toList with
  | some spans =>
    left
    obtain ⟨pre, g, ws, ds, post, hspans, hl, _, hg, _, hds, hd⟩ := arrayRe_spans _ _ h1
    rw [GetDereferenceType_of_array s spans h1, hspans] at h
    refine ⟨pre, g, ws, ds, post, hl, hg, hds, hd, ?_⟩
    have := (Prod.mk.inj h).1
    rw [← this]
    rfl
  | none =>
    cases h2 : findAt pointerRe.atoms s.toList with
    | some spans =>
      right
      obtain ⟨pre, g, ws, post, k, hspans, hk, hl, _, hg, _⟩ := pointerRe_spans _ _ h2
      rw [GetDereferenceType_of_pointer s spans h1 h2, hspans] at h
      refine ⟨pre, g, ws, post, k, hk, hl, hg, ?_⟩
      have := (Prod.mk.inj h).1
      rw [← this]
      simp [TrimSpace, sliceTo, String.toList, List.take_replicate]
    | none =>
      rw [GetDereferenceType_of_none s h1 h2] at h
      cases (Prod.mk.inj h).2

theorem trimSpaceChars_length_le (l : List Char) : (trimSpaceChars l).length ≤ l.length :=
  (trimSpaceChars_sublist l).length_le

/-- A successful result is strictly shorter than the input. -/
theorem GetDereferenceType_length_lt (s r : String) (h : GetDereferenceType s = (r, none)) :
    r.length < s.length := by
  rcases GetDereferenceType_shape s r h with
    ⟨pre, g, ws, ds, post, hl, _, _, _, hr⟩ | ⟨pre, g, ws, post, k, hk, hl, _, hr⟩
  · have h1 := trimSpaceChars_length_le g
    have h2 : s.length = (pre ++ g ++ ws ++ '[' :: ds ++ ']' :: post).length := by
      rw [← hl]; rfl
    have h3 : r.length = (trimSpaceChars g).length := by rw [hr]; rfl
    simp only [List.length_append, List.length_cons] at h2
    omega
  · have h1 := trimSpaceChars_length_le (g ++ List.replicate (k - 1) '*')
    have h2 : s.length = (pre ++ g ++ ws ++ List.replicate k '*' ++ post).length := by
      rw [← hl]; rfl
    have h3 : r.length = (trimSpaceChars (g ++ List.replicate (k - 1) '*')).length := by
      rw [hr]; rfl
    simp only [List.length_append, List.length_replicate] at h1 h2
    omega

theorem utf8ByteSize_mk (l : List Char) :
    (String.mk l).utf8ByteSize = (l.map Char.utf8Size).sum := by
  induction l with
  | nil => rfl
  | cons c cs ih =>
    simp only [String.utf8ByteSize, String.utf8ByteSize.go, List.map_cons,
      List.sum_cons] at *
    omega

theorem utf8_sum_sublist (l1 l2 : List Char) (h : l1.Sublist l2) :
    (l1.map Char.utf8Size).sum + (l2.length - l1.length) ≤ (l2.map Char.utf8Size).sum := by
  induction h with
  | slnil => simp
  | cons a hsub ih =>
    rename_i x y
    have hpos := Char.utf8Size_pos a
    have hlen := hsub.length_le
    simp only [List.map_cons, List.sum_cons, List.length_cons]
    omega
  | cons₂ a hsub ih =>
    rename_i x y
    simp only [List.map_cons, List.sum_cons, List.length_cons]
    omega

/-- The characters of a successful result are characters of the input, in the same
order. -/
theorem GetDereferenceType_sublist (s r : String) (h : GetDereferenceType s = (r, none)) :
    r.toList.Sublist s.toList := by
  rcases GetDereferenceType_shape s r h with
    ⟨pre, g, ws, ds, post, hl, _, _, _, hr⟩ | ⟨pre, g, ws, post, k, hk, hl, _, hr⟩
  · rw [hl, hr]
    refine (trimSpaceChars_sublist g).trans ?_
    have h1 : g.Sublist (pre ++ g) := List.sublist_append_right _ _
    have h2 : (pre ++ g).Sublist (pre ++ g ++ (ws ++ ('[' :: ds ++ ']' :: post))) :=
      List.sublist_append_left _ _
    have h3 := h1.trans h2
    have he : pre ++ g ++ ws ++ '[' :: ds ++ ']' :: post =
        pre ++ g ++ (ws ++ ('[' :: ds ++ ']' :: post)) := by
      simp only [List.append_assoc]
    rw [he]
    exact h3
  · rw [hl, hr]
    refine (trimSpaceChars_sublist _).trans ?_
    have h0 : (List.replicate (k - 1) '*').Sublist (List.replicate k '*') := by
      have := List.take_sublist (k - 1) (List.replicate k '*')
      rwa [List.take_replicate, Nat.min_eq_left (Nat.sub_le k 1)] at this
    have h1 : (g ++ List.replicate (k - 1) '*').Sublist (g ++ (ws ++ List.replicate k '*')) :=
      List.Sublist.append (List.Sublist.refl g) (h0.trans (List.sublist_append_right _ _))
    have h2 : (g ++ (ws ++ List.replicate k '*')).Sublist
        (pre ++ (g ++ (ws ++ List.replicate k '*'))) := List.sublist_append_right _ _
    have h3 : (pre ++ (g ++ (ws ++ List.replicate k '*'))).Sublist
        (pre ++ (g ++ (ws ++ List.replicate k '*')) ++ post) := List.sublist_append_left _ _
    have h4 := (h1.trans h2).trans h3
    simpa [List.append_assoc] using h4

/-- A successful result takes strictly fewer bytes than the input. -/
theorem GetDereferenceType_bytes_lt (s r : String) (h : GetDereferenceType s = (r, none)) :
    r.utf8ByteSize < s.utf8ByteSize := by
  have hsub := GetDereferenceType_sublist s r h
  have hlen : r.toList.length < s.toList.length := GetDereferenceType_length_lt s r h
  have hsum := utf8_sum_sublist _ _ hsub
  have hr : r.utf8ByteSize = (r.toList.map Char.utf8Size).sum := utf8ByteSize_mk r.toList
  have hs : s.utf8ByteSize = (s.toList.map Char.utf8Size).sum := utf8ByteSize_mk s.toList
  omega

/-- C20. Whenever `GetDereferenceType s` succeeds, its result is strictly shorter than
`s`, in characters and in bytes; hence, applying `GetDereferenceType` again and again
from any `s`, the error case is reached after at most `length s` successful
applications. -/
theorem GetDereferenceType_terminates (s : String) :
    (∀ r, GetDereferenceType s = (r, none) →
      r.length < s.length ∧ r.utf8ByteSize < s.utf8ByteSize) ∧
    (∃ n t, n ≤ s.length ∧ decayTimes n s = some t ∧ (GetDereferenceType t).2 ≠ none) := by
  refine ⟨fun r h => ⟨GetDereferenceType_length_lt s r h,
    GetDereferenceType_bytes_lt s r h⟩, ?_⟩
  have key : ∀ (m : Nat) (s : String), s.length ≤ m →
      ∃ n t, n ≤ s.length ∧ decayTimes n s = some t ∧ (GetDereferenceType t).2 ≠ none := by
    intro m
    induction m with
    | zero =>
      intro s hs
      refine ⟨0, s, Nat.zero_le _, rfl, ?_⟩
      intro hnone
      have hlt := GetDereferenceType_length_lt s (GetDereferenceType s).1
        (Prod.ext rfl hnone)
      omega
    | succ m ih =>
      intro s hs
      cases he : (GetDereferenceType s).2 with
      | some e =>
        exact ⟨0, s, Nat.zero_le _, rfl, by rw [he]; exact Option.some_ne_none e⟩
      | none =>
        have hres : GetDereferenceType s = ((GetDereferenceType s).1, none) :=
          Prod.ext rfl he
        have hlt := GetDereferenceType_length_lt s _ hres
        obtain ⟨n, t, hn, hdt, hfail⟩ := ih (GetDereferenceType s).1 (by omega)
        refine ⟨n + 1, t, by omega, ?_, hfail⟩
        show (match GetDereferenceType s with
          | (r, none) => decayTimes n r
          | (_, some _) => none) = some t
        rw [hres]
        exact hdt
  exact key s.length s (le_refl _)

/-! ## The decay-type resolver: pointer runs before an array length, levels -/

theorem pointerRe_match_then (b rest : List Char) (k : Nat)
    (hb : ∀ c ∈ b, isWordOrSpace c = true) (hne : b ≠ []) (hk : 1 ≤ k)
    (hrest : ∀ c ∈ rest.head?, c ≠ '*') :
    findAt pointerRe.atoms (b ++ (List.replicate k '*' ++ rest)) =
      some [b, [], List.replicate k '*'] := by
  apply findAt_of_matchHere
  have h3 : matchHere [⟨fun c => c == '*', Quant.plus⟩] (List.replicate k '*' ++ rest)
      = some [List.replicate k '*'] :=
    matchHere_rep _ _ _ _ _ (by decide)
      (by intro c hc; rw [List.eq_of_mem_replicate hc]; decide)
      (by intro c hc; simpa using hrest c hc) (by intro _; simpa using hk) rfl
  have hstar : ∀ c ∈ (List.replicate k '*' ++ rest).head?, c = '*' := by
    intro c hc
    cases k with
    | zero => omega
    | succ j => simp [List.replicate_succ] at hc; exact hc.symm
  have h2 := matchHere_rep ⟨isReSpace, Quant.star⟩ _ [] _ _ (by decide)
    (by intro c hc; cases hc) (by intro c hc; rw [hstar c hc]; decide)
    (by intro h; cases h) h3
  have h1 := matchHere_rep ⟨isWordOrSpace, Quant.plus⟩ _ b _ _ (by decide) hb
    (by intro c hc; rw [hstar c hc]; decide)
    (fun _ => List.length_pos.mpr hne) h2
  simpa [pointerRe] using h1

theorem split_at_unique (c : Char) (a b a2 b2 : List Char)
    (h : a ++ c :: b = a2 ++ c :: b2) (ha2 : c ∉ a2) (hb2 : c ∉ b2) : a = a2 := by
  rcases List.append_eq_append_iff.mp h with ⟨t, h1, h2⟩ | ⟨t, h1, h2⟩
  · cases t with
    | nil => simpa using h1.symm
    | cons x t =>
      exfalso
      have hx : c = x := by
        have := congrArg List.head? h2
        simpa using this
      subst hx
      apply ha2
      rw [h1]
      simp
  · cases t with
    | nil => simpa using h1
    | cons x t =>
      exfalso
      have hx : c = x := by
        have := congrArg List.head? h2
        simpa using this
      subst hx
      apply hb2
      have h3 : b2 = t ++ c :: b := by
        have := congrArg List.tail h2
        simpa using this
      rw [h3]
      simp

theorem arrayRe_none_after_star (x n : List Char) (hx : '[' ∉ x) (hn : '[' ∉ n) :
    findAt arrayRe.atoms (x ++ '*' :: '[' :: n) = none := by
  cases hf : findAt arrayRe.atoms (x ++ '*' :: '[' :: n) with
  | none => rfl
  | some spans =>
    exfalso
    obtain ⟨pre, g, ws, ds, post, _, hl, hg, hgc, hwsc, _, _⟩ := arrayRe_spans _ _ hf
    have hl2 : (pre ++ g ++ ws) ++ '[' :: (ds ++ ']' :: post) = (x ++ ['*']) ++ '[' :: n := by
      simpa [List.append_assoc] using hl.symm
    have hsplit := split_at_unique '[' _ _ _ _ hl2
      (by intro hm; rcases List.mem_append.mp hm with h | h
          · exact hx h
          · simp at h) hn
    rcases List.eq_nil_or_concat ws with hws | ⟨ws2, y, hws⟩
    · rcases List.eq_nil_or_concat g with hg0 | ⟨g2, y, hg2⟩
      · exact hg hg0
      · rw [hws, hg2, List.append_nil, List.concat_eq_append, ← List.append_assoc] at hsplit
        have := (List.append_inj' hsplit rfl).2
        have hy : y = '*' := by simpa using this
        have := hgc y (by rw [hg2]; simp)
        rw [hy] at this
        revert this
        decide
    · rw [hws, List.concat_eq_append, ← List.append_assoc] at hsplit
      have := (List.append_inj' hsplit rfl).2
      have hy : y = '*' := by simpa using this
      have := hwsc y (by rw [hws]; simp)
      rw [hy] at this
      revert this
      decide

/-- C16, what the code does.  For every type string of the shape
`<base> <k stars>[<N>]` with `k ≥ 1`, base made of word characters and spaces and `N`
made of digits, the array pattern, tried first, does not match (the character before
`[` is a `*`, which is not in `[\w ]`), so `GetDereferenceType` falls to the pointer
rule: one star is removed and the `[N]` suffix is dropped with it.  The result is
`<base> <k-1 stars>` with leading and trailing white space removed, not the type
that keeps the `k` stars and loses only `[N]`. -/
theorem GetDereferenceType_pointer_array (base N : String) (k : Nat)
    (hbase : ∀ c ∈ base.toList, isWordOrSpace c = true) (hk : 1 ≤ k)
    (hdigits : ∀ c ∈ N.toList, isDigit c = true) :
    GetDereferenceType (base ++ " " ++ stars k ++ "[" ++ N ++ "]") =
      (TrimSpace (base ++ " " ++ stars (k - 1)), none) := by
  obtain ⟨j, rfl⟩ : ∃ j, k = j + 1 := ⟨k - 1, by omega⟩
  have hl : (base ++ " " ++ stars (j + 1) ++ "[" ++ N ++ "]").toList =
      (base.toList ++ [' ']) ++ (List.replicate (j + 1) '*' ++ '[' :: (N.toList ++ [']'])) := by
    simp [String.toList, String.data_append, stars]
  have hl2 : (base ++ " " ++ stars (j + 1) ++ "[" ++ N ++ "]").toList =
      (base.toList ++ ' ' :: List.replicate j '*') ++ '*' :: '[' :: (N.toList ++ [']']) := by
    rw [hl]
    simp [List.replicate_succ']
  have hb2 : ∀ c ∈ base.toList ++ [' '], isWordOrSpace c = true := by
    intro c hc
    rcases List.mem_append.mp hc with h | h
    · exact hbase c h
    · simp at h; subst h; decide
  have h1 : findAt arrayRe.atoms (base ++ " " ++ stars (j + 1) ++ "[" ++ N ++ "]").toList
      = none := by
    rw [hl2]
    apply arrayRe_none_after_star
    · intro hm
      rcases List.mem_append.mp hm with h | h
      · have := hbase _ h
        revert this
        decide
      · rcases List.mem_cons.mp h with h | h
        · revert h; decide
        · have := List.eq_of_mem_replicate h
          revert this
          decide
    · intro hm
      rcases List.mem_append.mp hm with h | h
      · have := hdigits _ h
        revert this
        decide
      · simp at h
  have h2 := pointerRe_match_then (base.toList ++ [' ']) ('[' :: (N.toList ++ [']'])) (j + 1)
    hb2 (by simp) (by omega) (by intro c hc; simp at hc; subst hc; decide)
  rw [← hl] at h2
  rw [GetDereferenceType_of_pointer _ _ h1 h2]
  simp [sliceTo, stars, String.toList, List.take_replicate, TrimSpace, String.data_append]

/-- Witness of C16: `"char **[8]"` decays to `"char *"`, and `"char *[8]"` decays to
`"char"`, not to `"char *"`. -/
theorem GetDereferenceType_pointer_array_witness :
    GetDereferenceType ("char" ++ " " ++ stars 1 ++ "[" ++ "8" ++ "]") =
      (TrimSpace ("char" ++ " " ++ stars (1 - 1)), none) ∧
    GetDereferenceType "char *[8]" = ("char", none) ∧
    (GetDereferenceType "char *[8]").1 ≠ "char *" ∧
    GetDereferenceType "char **[8]" = ("char *", none) :=
  ⟨GetDereferenceType_pointer_array "char" "8" 1 (by decide) (by decide) (by decide),
    by decide, by decide, by decide⟩

theorem countArrayGroups_eq_zero : ∀ (l : List Char), '[' ∉ l → countArrayGroups l = 0 := by
  intro l
  induction l with
  | nil => intro _; rfl
  | cons c cs ih =>
    intro h
    have hc : (c == '[') = false := by
      have : c ≠ '[' := fun e => h (by rw [e]; simp)
      simpa using this
    have hcs : '[' ∉ cs := fun hm => h (List.mem_cons_of_mem _ hm)
    simp [countArrayGroups, hc, ih hcs]

theorem countArrayGroups_append_ge (x : List Char) :
    ∀ (pre : List Char), countArrayGroups x ≤ countArrayGroups (pre ++ x) := by
  intro pre
  induction pre with
  | nil => exact le_refl _
  | cons c cs ih =>
    have hstep : countArrayGroups (c :: (cs ++ x)) =
        (if c == '[' && closesArrayGroup (cs ++ x) then 1 else 0) +
          countArrayGroups (cs ++ x) := rfl
    rw [List.cons_append, hstep]
    omega

theorem dropWhile_append_stop (p : Char → Bool) (l r : List Char)
    (hl : ∀ c ∈ l, p c = true) (hr : ∀ c ∈ r.head?, p c = false) :
    (l ++ r).dropWhile p = r := by
  induction l with
  | nil =>
    cases r with
    | nil => rfl
    | cons c cs =>
      have := hr c (by simp)
      simp [List.dropWhile, this]
  | cons a l ih =>
    have ha := hl a (by simp)
    rw [List.cons_append, List.dropWhile_cons, ha]
    simpa using ih (fun c hc => hl c (by simp [hc]))

theorem countArrayGroups_group (ds post : List Char) (hds : ds ≠ [])
    (hd : ∀ c ∈ ds, isDigit c = true) :
    1 ≤ countArrayGroups ('[' :: (ds ++ ']' :: post)) := by
  have h1 : (ds ++ ']' :: post).takeWhile isDigit = ds :=
    takeWhile_append_stop isDigit ds _ hd (by intro c hc; simp at hc; subst hc; decide)
  have h2 : (ds ++ ']' :: post).dropWhile isDigit = ']' :: post :=
    dropWhile_append_stop isDigit ds _ hd (by intro c hc; simp at hc; subst hc; decide)
  have h3 : closesArrayGroup (ds ++ ']' :: post) = true := by
    unfold closesArrayGroup
    rw [h1, h2]
    cases ds with
    | nil => exact absurd rfl hds
    | cons d ds => rfl
  simp only [countArrayGroups, h3]
  simp

theorem levels_of_trim (l : List Char) (m : Nat) (hcount : countStars l ≤ m)
    (hb : '[' ∉ l) :
    indirectionLevels (String.mk (trimSpaceChars l)) ≤ m := by
  have hsub := trimSpaceChars_sublist l
  have h1 : countStars (trimSpaceChars l) ≤ countStars l := hsub.count_le _
  have h2 : countArrayGroups (trimSpaceChars l) = 0 :=
    countArrayGroups_eq_zero _ (fun hm => hb (hsub.subset hm))
  show countStars (trimSpaceChars l) + countArrayGroups (trimSpaceChars l) ≤ m
  omega

theorem countStars_wordOrSpace (g : List Char) (hg : ∀ c ∈ g, isWordOrSpace c = true) :
    countStars g = 0 := by
  apply List.count_eq_zero_of_not_mem
  intro hm
  have := hg _ hm
  revert this
  decide

theorem no_bracket_wordOrSpace (g : List Char) (hg : ∀ c ∈ g, isWordOrSpace c = true) :
    '[' ∉ g := by
  intro hm
  have := hg _ hm
  revert this
  decide

/-- C17, what the code does.  Counting every `*` and every group `[digits]` as one
level, a successful result has strictly fewer levels than the input, but not always
exactly one fewer: when the array pattern occurs in the input the result has no
level left at all, however many levels the input had. -/
theorem GetDereferenceType_levels (s r : String) (h : GetDereferenceType s = (r, none)) :
    indirectionLevels r < indirectionLevels s ∧
    (HasArrayForm s → indirectionLevels r = 0) := by
  constructor
  · rcases GetDereferenceType_shape s r h with
      ⟨pre, g, ws, ds, post, hl, hg, hds, hd, hr⟩ | ⟨pre, g, ws, post, k, hk, hl, hg, hr⟩
    · have h1 : indirectionLevels r ≤ 0 := by
        rw [hr]
        exact levels_of_trim g 0 (by rw [countStars_wordOrSpace g hg])
          (no_bracket_wordOrSpace g hg)
      have h2 : 1 ≤ countArrayGroups s.toList := by
        have hl2 : s.toList = (pre ++ g ++ ws) ++ '[' :: (ds ++ ']' :: post) := by
          rw [hl]; simp [List.append_assoc]
        rw [hl2]
        exact le_trans (countArrayGroups_group ds post hds hd)
          (countArrayGroups_append_ge _ _)
      have h3 : indirectionLevels s = countStars s.toList + countArrayGroups s.toList := rfl
      omega
    · have h1 : indirectionLevels r ≤ k - 1 := by
        rw [hr]
        apply levels_of_trim
        · unfold countStars
          rw [List.count_append, List.count_replicate_self]
          have := countStars_wordOrSpace g hg
          unfold countStars at this
          omega
        · intro hm
          rcases List.mem_append.mp hm with hm | hm
          · exact no_bracket_wordOrSpace g hg hm
          · have := List.eq_of_mem_replicate hm
            revert this
            decide
      have h2 : k ≤ countStars s.toList := by
        unfold countStars
        rw [hl]
        simp only [List.count_append, List.count_replicate_self]
        omega
      have h3 : indirectionLevels s = countStars s.toList + countArrayGroups s.toList := rfl
      omega
  · intro hform
    have hsome := (arrayRe_isSome_iff s).mpr hform
    obtain ⟨spans, hs⟩ := Option.isSome_iff_exists.mp hsome
    obtain ⟨pre, g, ws, ds, post, hspans, _, _, hg, _⟩ := arrayRe_spans _ _ hs
    rw [GetDereferenceType_of_array s spans hs, hspans] at h
    have hr : r = String.mk (trimSpaceChars g) := by
      rw [← (Prod.mk.inj h).1]
      rfl
    have := levels_of_trim g 0 (by rw [countStars_wordOrSpace g hg])
      (no_bracket_wordOrSpace g hg)
    rw [hr]
    omega

/-- Witness of C17: `"int [2][3]"` has two levels and decays to `"int"`, which has
none: both array dimensions are gone, where one-level decay would leave one. -/
theorem GetDereferenceType_levels_witness :
    (indirectionLevels "int" < indirectionLevels "int [2][3]" ∧
      (HasArrayForm "int [2][3]" → indirectionLevels "int" = 0)) ∧
    GetDereferenceType "int [2][3]" = ("int", none) ∧
    indirectionLevels "int [2][3]" = 2 ∧ indirectionLevels "int" = 0 :=
  ⟨GetDereferenceType_levels "int [2][3]" "int" (by decide), by decide, by decide,
    by decide⟩

/-- Witness of C20: from `"char **"` two applications succeed and the third one, on
`"char"`, is the error case. -/
theorem GetDereferenceType_terminates_witness :
    ("char *".length < "char **".length ∧
      "char *".utf8ByteSize < "char **".utf8ByteSize) ∧
    decayTimes 2 "char **" = some "char" ∧ GetDereferenceType "char" = ("", some "char") :=
  ⟨(GetDereferenceType_terminates "char **").1 "char *" (by decide), by decide, by decide⟩

/-! ## The binary-operator transpiler: statement lists, errors, assignment -/

theorem getTokenForOperator_lor : getTokenForOperator "||" = some Token.LOR := by
  decide

theorem ne_oneElementView (D : String) (c : Option GoExpr) : c ≠ oneElementView D c := by
  intro h
  have hs := congrArg sizeOf h
  unfold oneElementView at hs
  simp at hs
  omega

/-- C12. If transpiling the left operand fails with `e`, `transpileBinaryOperator`
returns `e` with a nil expression, an empty result type and nil statement lists, in
the state the left operand left: the right operand is not transpiled.  If the left
operand succeeds and the right operand fails with `e`, it returns `e` with a nil
expression, an empty result type and nil statement lists, in the state the right
operand left: no type is resolved, no cast made, no import registered. -/
theorem transpileBinaryOperator_operand_error {P : Type} (env : Env P)
    (n : BinaryOperator) (p : P) :
    (∀ (child0 : Node) (rest : List Node) (l : ExprResult) (p1 : P) (e : GoError),
      n.Children = child0 :: rest → env.transpileToExpr child0 p = (l, p1) →
      l.err = some e →
      transpileBinaryOperator env n p = Res.ok (⟨none, "", [], [], some e⟩, p1)) ∧
    (∀ (child0 child1 : Node) (rest : List Node) (l r : ExprResult) (p1 p2 : P)
      (e : GoError),
      n.Children = child0 :: child1 :: rest → env.transpileToExpr child0 p = (l, p1) →
      l.err = none → env.transpileToExpr child1 p1 = (r, p2) → r.err = some e →
      transpileBinaryOperator env n p = Res.ok (⟨none, "", [], [], some e⟩, p2)) := by
  constructor
  · intro child0 rest l p1 e hchildren hleft hlerr
    unfold transpileBinaryOperator
    simp only [hchildren, List.get?, hleft, hlerr]
  · intro child0 child1 rest l r p1 p2 e hchildren hleft hlerr hright hrerr
    unfold transpileBinaryOperator
    simp only [hchildren, List.get?, hleft, hlerr, hright, hrerr]

/-- Witness of C12: with an unsupported left operand, and with an unsupported right
operand after a supported left one, the error comes back with nothing else. -/
theorem transpileBinaryOperator_operand_error_witness :
    transpileBinaryOperator exampleEnv
        { Address := "", Position := "", Type_ := "int", Operator := "+",
          Children := [Node.Other "Unsupported" "" "" [], declRef "y" "int"] }
        Program.empty =
      Res.ok (⟨none, "", [], [], some "unsupported node"⟩, Program.empty) ∧
    transpileBinaryOperator exampleEnv
        { Address := "", Position := "", Type_ := "int", Operator := "+",
          Children := [declRef "x" "int", Node.Other "Unsupported" "" "" []] }
        Program.empty =
      Res.ok (⟨none, "", [], [], some "unsupported node"⟩, Program.empty) :=
  ⟨(transpileBinaryOperator_operand_error exampleEnv _ Program.empty).1
      (Node.Other "Unsupported" "" "" []) [declRef "y" "int"]
      ⟨none, "", [], [], some "unsupported node"⟩ Program.empty "unsupported node"
      (by rfl) (by rfl) (by rfl),
   (transpileBinaryOperator_operand_error exampleEnv _ Program.empty).2
      (declRef "x" "int") (Node.Other "Unsupported" "" "" []) []
      ⟨some (GoExpr.Ident "x"), "int", [], [], none⟩
      ⟨none, "", [], [], some "unsupported node"⟩ Program.empty Program.empty
      "unsupported node" (by rfl) (by rfl) (by rfl) (by rfl) (by rfl)⟩

/-- C13, what the code does.  When the allocation path of an assignment fails with
`e` (the size node does not transpile, the left type does not decay, `ResolveType`
of the left type fails, or `SizeOf` of the decayed type fails), the function returns
`e` with a nil expression and an empty result type, but the two statement lists it
returns are the accumulated ones: those of the left operand, of the right operand
and of the size node, in this order. -/
theorem transpileBinaryOperator_allocation_error {P : Type} (env : Env P)
    (n : BinaryOperator) (p p1 p2 p3 : P) (child0 child1 S : Node) (rest : List Node)
    (l r a : ExprResult) (d T : String) (sz : Int) (e : GoError)
    (hop : n.Operator = "=")
    (hchildren : n.Children = child0 :: child1 :: rest)
    (hleft : env.transpileToExpr child0 p = (l, p1)) (hlerr : l.err = none)
    (hright : env.transpileToExpr child1 p1 = (r, p2)) (hrerr : r.err = none)
    (hsize : GetAllocationSizeNode env.GetAllNodesOfType env.getNameOfFunctionFromCallExpr
      child1 = Res.ok (some S))
    (halloc : env.transpileToExpr S p2 = (a, p3))
    (hfail : a.err = some e ∨
      (a.err = none ∧ GetDereferenceType l.ctype = (d, some e)) ∨
      (a.err = none ∧ GetDereferenceType l.ctype = (d, none) ∧
        env.ResolveType p3 l.ctype = (T, some e)) ∨
      (a.err = none ∧ GetDereferenceType l.ctype = (d, none) ∧
        env.ResolveType p3 l.ctype = (T, none) ∧ env.SizeOf p3 d = (sz, some e))) :
    transpileBinaryOperator env n p =
      Res.ok (⟨none, "", l.preStmts ++ r.preStmts ++ a.preStmts,
        l.postStmts ++ r.postStmts ++ a.postStmts, some e⟩, p3) := by
  unfold transpileBinaryOperator
  rcases hfail with h | ⟨h1, h2⟩ | ⟨h1, h2, h3⟩ | ⟨h1, h2, h3, h4⟩
  · simp only [hchildren, List.get?, hleft, hlerr, hright, hrerr, hop,
      getTokenForOperator_assign, combinePreAndPostStmts, hsize, halloc, h,
      List.nil_append]
    simp
  · simp only [hchildren, List.get?, hleft, hlerr, hright, hrerr, hop,
      getTokenForOperator_assign, combinePreAndPostStmts, hsize, halloc, h1, h2,
      List.nil_append]
    simp
  · simp only [hchildren, List.get?, hleft, hlerr, hright, hrerr, hop,
      getTokenForOperator_assign, combinePreAndPostStmts, hsize, halloc, h1, h2, h3,
      List.nil_append]
    simp
  · simp only [hchildren, List.get?, hleft, hlerr, hright, hrerr, hop,
      getTokenForOperator_assign, combinePreAndPostStmts, hsize, halloc, h1, h2, h3, h4,
      List.nil_append]
    simp

/-- Witness of C13: in `a = malloc(n)` with `a` of type `int` the call is hoisted, the
left type does not decay, and the error comes back together with the hoisted
statements. -/
theorem transpileBinaryOperator_allocation_error_witness :
    transpileBinaryOperator hoistEnv mallocIntoInt Program.empty =
      Res.ok (⟨none, "", [GoStmt.Other "tmp_malloc := malloc()"],
        [GoStmt.Other "release(tmp_malloc)"], some "int"⟩, Program.empty) :=
  transpileBinaryOperator_allocation_error hoistEnv mallocIntoInt Program.empty
    Program.empty Program.empty Program.empty (declRef "a" "int")
    (callOf "malloc" "void *" [declRef "n" "int"]) (declRef "n" "int") []
    ⟨some (GoExpr.Ident "a"), "int", [], [], none⟩
    ⟨some (GoExpr.Ident "tmp_malloc"), "void *", [GoStmt.Other "tmp_malloc := malloc()"],
      [GoStmt.Other "release(tmp_malloc)"], none⟩
    ⟨some (GoExpr.Ident "n"), "int", [], [], none⟩
    "" "" 0 "int"
    (by rfl) (by rfl) (by rfl) (by rfl) (by rfl) (by rfl) (by rfl) (by rfl)
    (Or.inr (Or.inl ⟨by rfl, by decide⟩))

/-- C15. For a plain assignment whose right operand holds no allocation call, if the
coercion of the right operand returns an error and no expression,
`transpileBinaryOperator` does not fail: it returns `left = nil`, the right-hand side
being the literal `nil`, with a nil error and the resolver-combined result type; the
error is recorded as a warning. -/
theorem transpileBinaryOperator_assign_cast_failure {P : Type} (env : Env P)
    (n : BinaryOperator) (p p1 p2 : P) (child0 child1 : Node) (rest : List Node)
    (l r : ExprResult) (e : GoError)
    (hop : n.Operator = "=")
    (hchildren : n.Children = child0 :: child1 :: rest)
    (hleft : env.transpileToExpr child0 p = (l, p1)) (hlerr : l.err = none)
    (hright : env.transpileToExpr child1 p1 = (r, p2)) (hrerr : r.err = none)
    (hnoalloc : GetAllocationSizeNode env.GetAllNodesOfType
      env.getNameOfFunctionFromCallExpr child1 = Res.ok none)
    (hcast : env.CastExpr p2 r.expr r.ctype
      (env.ResolveTypeForBinaryOperator p2 "=" l.ctype r.ctype) = (none, some e)) :
    transpileBinaryOperator env n p =
      Res.ok (⟨some (GoExpr.BinaryExpr l.expr Token.ASSIGN
          (some (GoExpr.BasicLit Token.STRING "nil"))),
        env.ResolveTypeForBinaryOperator (env.warn e n.toNode p2) "=" l.ctype r.ctype,
        l.preStmts ++ r.preStmts, l.postStmts ++ r.postStmts, none⟩,
        env.warn e n.toNode p2) := by
  unfold transpileBinaryOperator
  simp only [hchildren, List.get?, hleft, hlerr, hright, hrerr, hop,
    getTokenForOperator_assign, combinePreAndPostStmts, hnoalloc, List.nil_append]
  simp [hcast, IsWarning, binaryReturn, NewBinaryExpr, NewStringLit, hop]

/-- Witness of C15: `b = s` with `b` a `bool` and `s` of a type with no cast to `bool`
gives `b = nil` and one recorded warning. -/
theorem transpileBinaryOperator_assign_cast_failure_witness :
    transpileBinaryOperator exampleEnv uncastableAssign Program.empty =
      Res.ok (⟨some (GoExpr.BinaryExpr (some (GoExpr.Ident "b")) Token.ASSIGN
          (some (GoExpr.BasicLit Token.STRING "nil"))), "bool", [], [], none⟩,
        { imports := [], warnings := ["cannot cast struct S to bool"] }) :=
  transpileBinaryOperator_assign_cast_failure exampleEnv uncastableAssign Program.empty
    Program.empty Program.empty (declRef "b" "bool") (declRef "s" "struct S") []
    ⟨some (GoExpr.Ident "b"), "bool", [], [], none⟩
    ⟨some (GoExpr.Ident "s"), "struct S", [], [], none⟩
    "cannot cast struct S to bool"
    (by rfl) (by rfl) (by rfl) (by rfl) (by rfl) (by rfl) (by rfl) (by rfl)

/-- C18, what the code does.  For a node whose operator is `||` and whose operands
transpile, `transpileBinaryOperator` takes the general path: the emitted expression
is `left || right` over the transpiled operands as they are, with no cast to `bool`
and no diagnostic, and the result type is the resolver-combined type, not `"bool"`. -/
theorem transpileBinaryOperator_logical_or {P : Type} (env : Env P) (n : BinaryOperator)
    (p p1 p2 : P) (child0 child1 : Node) (rest : List Node) (l r : ExprResult)
    (hop : n.Operator = "||")
    (hchildren : n.Children = child0 :: child1 :: rest)
    (hleft : env.transpileToExpr child0 p = (l, p1)) (hlerr : l.err = none)
    (hright : env.transpileToExpr child1 p1 = (r, p2)) (hrerr : r.err = none) :
    transpileBinaryOperator env n p =
      Res.ok (⟨some (GoExpr.BinaryExpr l.expr Token.LOR r.expr),
        env.ResolveTypeForBinaryOperator p2 "||" l.ctype r.ctype,
        l.preStmts ++ r.preStmts, l.postStmts ++ r.postStmts, none⟩, p2) := by
  unfold transpileBinaryOperator
  simp only [hchildren, List.get?, hleft, hlerr, hright, hrerr, hop,
    getTokenForOperator_lor, combinePreAndPostStmts, List.nil_append]
  simp [binaryReturn, NewBinaryExpr, hop]

/-- Witness of C18: `x || y` over two `int` operands comes out as `x || y` of type
`"int"`: the operands are not made boolean. -/
theorem transpileBinaryOperator_logical_or_witness :
    transpileBinaryOperator exampleEnv (binaryOf "||" "x" "int" "y" "int") Program.empty =
      Res.ok (⟨some (GoExpr.BinaryExpr (some (GoExpr.Ident "x")) Token.LOR
          (some (GoExpr.Ident "y"))), "int", [], [], none⟩, Program.empty) :=
  transpileBinaryOperator_logical_or exampleEnv (binaryOf "||" "x" "int" "y" "int")
    Program.empty Program.empty Program.empty (declRef "x" "int") (declRef "y" "int") []
    ⟨some (GoExpr.Ident "x"), "int", [], [], none⟩
    ⟨some (GoExpr.Ident "y"), "int", [], [], none⟩
    (by rfl) (by rfl) (by rfl) (by rfl) (by rfl) (by rfl)

theorem IsWarning_with_AddImport {P : Type} (env : Env P) (f : String → P → P)
    (e : Option GoError) (n : Node) (p : P) :
    IsWarning { env with AddImport := f } e n p = IsWarning env e n p := by
  cases e <;> rfl

theorem assign_cast_view {P : Type} (env : Env P)
    (n : BinaryOperator) (p p1 p2 : P) (child0 child1 : Node) (rest : List Node)
    (l r : ExprResult) (c : Option GoExpr) (ce : Option GoError)
    (hop : n.Operator = "=")
    (hchildren : n.Children = child0 :: child1 :: rest)
    (hleft : env.transpileToExpr child0 p = (l, p1)) (hlerr : l.err = none)
    (hright : env.transpileToExpr child1 p1 = (r, p2)) (hrerr : r.err = none)
    (hnoalloc : GetAllocationSizeNode env.GetAllNodesOfType
      env.getNameOfFunctionFromCallExpr child1 = Res.ok none)
    (hcast : env.CastExpr p2 r.expr r.ctype
      (env.ResolveTypeForBinaryOperator p2 "=" l.ctype r.ctype) = (c, ce))
    (hview : isUnaryExpr c = true ∧ (GetDereferenceType r.ctype).2 = none) :
    transpileBinaryOperator env n p =
      Res.ok (⟨some (GoExpr.BinaryExpr l.expr Token.ASSIGN
          (oneElementView (GetDereferenceType r.ctype).1 c)),
        env.ResolveTypeForBinaryOperator
          (IsWarning env ce n.toNode (env.AddImport "unsafe" p2)).2 "=" l.ctype r.ctype,
        l.preStmts ++ r.preStmts, l.postStmts ++ r.postStmts, none⟩,
        (IsWarning env ce n.toNode (env.AddImport "unsafe" p2)).2) := by
  obtain ⟨hu, hd⟩ := hview
  unfold transpileBinaryOperator
  simp only [hchildren, List.get?, hleft, hlerr, hright, hrerr, hop,
    getTokenForOperator_assign, combinePreAndPostStmts, hnoalloc, List.nil_append]
  rcases hg : GetDereferenceType r.ctype with ⟨D, derr⟩
  rw [hg] at hd
  simp only at hd
  subst hd
  cases c with
  | none => simp [isUnaryExpr] at hu
  | some x =>
    cases x <;> first
      | (simp [isUnaryExpr] at hu; done)
      | (cases ce <;>
          simp [hcast, hg, IsWarning, binaryReturn, NewBinaryExpr, NewStringLit, hop,
            oneElementView, NewCallExpr, NewIdent])

theorem assign_cast_plain {P : Type} (env : Env P)
    (n : BinaryOperator) (p p1 p2 : P) (child0 child1 : Node) (rest : List Node)
    (l r : ExprResult) (c : Option GoExpr) (ce : Option GoError)
    (hop : n.Operator = "=")
    (hchildren : n.Children = child0 :: child1 :: rest)
    (hleft : env.transpileToExpr child0 p = (l, p1)) (hlerr : l.err = none)
    (hright : env.transpileToExpr child1 p1 = (r, p2)) (hrerr : r.err = none)
    (hnoalloc : GetAllocationSizeNode env.GetAllNodesOfType
      env.getNameOfFunctionFromCallExpr child1 = Res.ok none)
    (hcast : env.CastExpr p2 r.expr r.ctype
      (env.ResolveTypeForBinaryOperator p2 "=" l.ctype r.ctype) = (c, ce))
    (hplain : ¬ (isUnaryExpr c = true ∧ (GetDereferenceType r.ctype).2 = none)) :
    transpileBinaryOperator env n p =
      Res.ok (⟨some (GoExpr.BinaryExpr l.expr Token.ASSIGN
          (if ce.isSome && c.isNone then some (GoExpr.BasicLit Token.STRING "nil") else c)),
        env.ResolveTypeForBinaryOperator
          (IsWarning env ce n.toNode
            (if isUnaryExpr c = true then
              (IsWarning env (GetDereferenceType r.ctype).2 n.toNode p2).2 else p2)).2
          "=" l.ctype r.ctype,
        l.preStmts ++ r.preStmts, l.postStmts ++ r.postStmts, none⟩,
        (IsWarning env ce n.toNode
          (if isUnaryExpr c = true then
            (IsWarning env (GetDereferenceType r.ctype).2 n.toNode p2).2 else p2)).2) := by
  unfold transpileBinaryOperator
  simp only [hchildren, List.get?, hleft, hlerr, hright, hrerr, hop,
    getTokenForOperator_assign, combinePreAndPostStmts, hnoalloc, List.nil_append]
  rcases hg : GetDereferenceType r.ctype with ⟨D, derr⟩
  rw [hg] at hplain
  cases c with
  | none =>
    cases ce <;>
      simp [hcast, IsWarning, binaryReturn, NewBinaryExpr, NewStringLit, hop, isUnaryExpr]
  | some x =>
    cases x <;> cases ce <;> cases derr <;>
      first
      | (simp [isUnaryExpr] at hplain; done)
      | simp [hcast, hg, IsWarning, binaryReturn, NewBinaryExpr, NewStringLit, hop,
          isUnaryExpr]

/-- C14. For a plain assignment whose right operand holds no allocation call, let `c`
be what `CastExpr` makes of the transpiled right operand for the resolver-combined
type.  The emitted right-hand side is the one-element view
`(*[1]D)(unsafe.Pointer(c))[:]`, `D` the decayed right type, exactly when `c` is a
unary expression and `GetDereferenceType` of the right type succeeds, and exactly
then `"unsafe"` is registered.  In every other case a non-nil `c` is the right-hand
side as it is, and `AddImport` is not called: the run is the same whatever
`AddImport` does. -/
theorem transpileBinaryOperator_assign_cast {P : Type} (env : Env P)
    (n : BinaryOperator) (p p1 p2 : P) (child0 child1 : Node) (rest : List Node)
    (l r : ExprResult) (c : Option GoExpr) (ce : Option GoError)
    (hop : n.Operator = "=")
    (hchildren : n.Children = child0 :: child1 :: rest)
    (hleft : env.transpileToExpr child0 p = (l, p1)) (hlerr : l.err = none)
    (hright : env.transpileToExpr child1 p1 = (r, p2)) (hrerr : r.err = none)
    (hnoalloc : GetAllocationSizeNode env.GetAllNodesOfType
      env.getNameOfFunctionFromCallExpr child1 = Res.ok none)
    (hcast : env.CastExpr p2 r.expr r.ctype
      (env.ResolveTypeForBinaryOperator p2 "=" l.ctype r.ctype) = (c, ce)) :
    ∃ (Y : Option GoExpr) (pf : P),
      transpileBinaryOperator env n p =
        Res.ok (⟨some (GoExpr.BinaryExpr l.expr Token.ASSIGN Y),
          env.ResolveTypeForBinaryOperator pf "=" l.ctype r.ctype,
          l.preStmts ++ r.preStmts, l.postStmts ++ r.postStmts, none⟩, pf) ∧
      (Y = oneElementView (GetDereferenceType r.ctype).1 c ↔
        (isUnaryExpr c = true ∧ (GetDereferenceType r.ctype).2 = none)) ∧
      ((isUnaryExpr c = true ∧ (GetDereferenceType r.ctype).2 = none) →
        pf = (IsWarning env ce n.toNode (env.AddImport "unsafe" p2)).2) ∧
      (¬ (isUnaryExpr c = true ∧ (GetDereferenceType r.ctype).2 = none) →
        (c ≠ none → Y = c) ∧
        pf = (IsWarning env ce n.toNode
          (if isUnaryExpr c = true then
            (IsWarning env (GetDereferenceType r.ctype).2 n.toNode p2).2 else p2)).2 ∧
        ∀ f : String → P → P,
          transpileBinaryOperator { env with AddImport := f } n p =
            transpileBinaryOperator env n p) := by
  by_cases hv : isUnaryExpr c = true ∧ (GetDereferenceType r.ctype).2 = none
  · exact ⟨_, _, assign_cast_view env n p p1 p2 child0 child1 rest l r c ce hop hchildren
      hleft hlerr hright hrerr hnoalloc hcast hv, ⟨fun _ => hv, fun _ => rfl⟩,
      fun _ => rfl, fun h => absurd hv h⟩
  · refine ⟨_, _, assign_cast_plain env n p p1 p2 child0 child1 rest l r c ce hop hchildren
      hleft hlerr hright hrerr hnoalloc hcast hv, ⟨?_, fun h => absurd h hv⟩,
      fun h => absurd h hv, fun _ => ⟨?_, rfl, ?_⟩⟩
    · intro hY
      exfalso
      by_cases hc : (ce.isSome && c.isNone) = true
      · rw [if_pos hc] at hY
        unfold oneElementView at hY
        cases Option.some.inj hY
      · rw [if_neg hc] at hY
        exact ne_oneElementView _ _ hY
    · intro hc
      have : c.isNone = false := by
        cases c with
        | none => exact absurd rfl hc
        | some x => rfl
      simp [this]
    · intro f
      rw [assign_cast_plain { env with AddImport := f } n p p1 p2 child0 child1 rest l r c
        ce hop hchildren hleft hlerr hright hrerr hnoalloc hcast hv,
        assign_cast_plain env n p p1 p2 child0 child1 rest l r c ce hop hchildren
        hleft hlerr hright hrerr hnoalloc hcast hv]
      simp only [IsWarning_with_AddImport]

/-- Witness of C14: `p = &a` with `p` of type `int *` gives
`p = (*[1]int)(unsafe.Pointer(&a))[:]` and registers `"unsafe"`. -/
theorem transpileBinaryOperator_assign_cast_witness :
    (∃ (Y : Option GoExpr) (pf : Program),
      transpileBinaryOperator hoistEnv addressAssign Program.empty =
        Res.ok (⟨some (GoExpr.BinaryExpr (some (GoExpr.Ident "p")) Token.ASSIGN Y),
          hoistEnv.ResolveTypeForBinaryOperator pf "=" "int *" "int *",
          [], [], none⟩, pf) ∧
      (Y = oneElementView (GetDereferenceType "int *").1
            (some (GoExpr.UnaryExpr Token.AND (some (GoExpr.Ident "a")))) ↔
        (isUnaryExpr (some (GoExpr.UnaryExpr Token.AND (some (GoExpr.Ident "a")))) = true ∧
          (GetDereferenceType "int *").2 = none)) ∧
      ((isUnaryExpr (some (GoExpr.UnaryExpr Token.AND (some (GoExpr.Ident "a")))) = true ∧
          (GetDereferenceType "int *").2 = none) →
        pf = (IsWarning hoistEnv none addressAssign.toNode
          (hoistEnv.AddImport "unsafe" Program.empty)).2) ∧
      (¬ (isUnaryExpr (some (GoExpr.UnaryExpr Token.AND (some (GoExpr.Ident "a")))) = true ∧
          (GetDereferenceType "int *").2 = none) →
        ((some (GoExpr.UnaryExpr Token.AND (some (GoExpr.Ident "a")))) ≠ none →
          Y = some (GoExpr.UnaryExpr Token.AND (some (GoExpr.Ident "a")))) ∧
        pf = (IsWarning hoistEnv none addressAssign.toNode
          (if isUnaryExpr (some (GoExpr.UnaryExpr Token.AND (some (GoExpr.Ident "a")))) = true
            then (IsWarning hoistEnv (GetDereferenceType "int *").2 addressAssign.toNode
              Program.empty).2 else Program.empty)).2 ∧
        ∀ f : String → Program → Program,
          transpileBinaryOperator { hoistEnv with AddImport := f } addressAssign
              Program.empty =
            transpileBinaryOperator hoistEnv addressAssign Program.empty)) ∧
    transpileBinaryOperator hoistEnv addressAssign Program.empty =
      Res.ok (⟨some (GoExpr.BinaryExpr (some (GoExpr.Ident "p")) Token.ASSIGN
          (some (GoExpr.SliceExpr
            (some (GoExpr.CallExpr (some (GoExpr.Ident "(*[1]int)"))
              [some (GoExpr.CallExpr (some (GoExpr.Ident "unsafe.Pointer"))
                [some (GoExpr.UnaryExpr Token.AND (some (GoExpr.Ident "a")))])]))
            none none none false))),
        "int *", [], [], none⟩, { imports := ["unsafe"], warnings := [] }) :=
  ⟨transpileBinaryOperator_assign_cast hoistEnv addressAssign Program.empty Program.empty
    Program.empty (declRef "p" "int *") (Node.Other "AddressOf" "a" "int *" []) []
    ⟨some (GoExpr.Ident "p"), "int *", [], [], none⟩
    ⟨some (GoExpr.UnaryExpr Token.AND (some (GoExpr.Ident "a"))), "int *", [], [], none⟩
    (some (GoExpr.UnaryExpr Token.AND (some (GoExpr.Ident "a")))) none
    (by rfl) (by rfl) (by rfl) (by rfl) (by rfl) (by rfl) (by rfl) (by rfl),
   by rfl⟩

theorem Res_ok_inj {α : Type} (a b : α) (h : Res.ok a = Res.ok b) : a = b := by
  cases h
  rfl

/-- C11. On every successful return of `transpileBinaryOperator` the pre-statement
list is the left operand's followed by the right operand's, and so is the
post-statement list; in the allocation case of an assignment the statements of the
size expression come after those; nothing else is added, dropped or reordered. -/
theorem transpileBinaryOperator_statement_order {P : Type} (env : Env P)
    (n : BinaryOperator) (p p1 p2 pf : P) (child0 child1 : Node) (rest : List Node)
    (l r : ExprResult) (res : BinaryResult)
    (hchildren : n.Children = child0 :: child1 :: rest)
    (hleft : env.transpileToExpr child0 p = (l, p1))
    (hright : env.transpileToExpr child1 p1 = (r, p2))
    (hok : transpileBinaryOperator env n p = Res.ok (res, pf)) (herr : res.err = none) :
    (∀ (S : Node) (a : ExprResult) (p3 : P), n.Operator = "=" →
      GetAllocationSizeNode env.GetAllNodesOfType env.getNameOfFunctionFromCallExpr
        child1 = Res.ok (some S) →
      env.transpileToExpr S p2 = (a, p3) →
      res.preStmts = l.preStmts ++ r.preStmts ++ a.preStmts ∧
      res.postStmts = l.postStmts ++ r.postStmts ++ a.postStmts) ∧
    (¬ (n.Operator = "=" ∧ ∃ S, GetAllocationSizeNode env.GetAllNodesOfType
        env.getNameOfFunctionFromCallExpr child1 = Res.ok (some S)) →
      res.preStmts = l.preStmts ++ r.preStmts ∧
      res.postStmts = l.postStmts ++ r.postStmts) := by
  have hfin : ∀ (x : BinaryResult) (q : P), Res.ok (x, q) = Res.ok (res, pf) →
      x.err = none → x.preStmts = res.preStmts ∧ x.postStmts = res.postStmts := by
    intro x q h _
    have := (Prod.mk.inj (Res_ok_inj _ _ h)).1
    rw [this]
    exact ⟨rfl, rfl⟩
  have hbad : ∀ (x : BinaryResult) (q : P) (e : GoError), x.err = some e →
      Res.ok (x, q) = Res.ok (res, pf) → False := by
    intro x q e hx h
    have := (Prod.mk.inj (Res_ok_inj _ _ h)).1
    rw [this, herr] at hx
    cases hx
  cases hle : l.err with
  | some e =>
    exfalso
    unfold transpileBinaryOperator at hok
    simp only [hchildren, List.get?, hleft, hle] at hok
    exact hbad _ _ e rfl hok
  | none =>
  cases hre : r.err with
  | some e =>
    exfalso
    unfold transpileBinaryOperator at hok
    simp only [hchildren, List.get?, hleft, hle, hright, hre] at hok
    exact hbad _ _ e rfl hok
  | none =>
  cases htok : getTokenForOperator n.Operator with
  | none =>
    exfalso
    unfold transpileBinaryOperator at hok
    simp only [hchildren, List.get?, hleft, hle, hright, hre, htok] at hok
    cases hok
  | some tok =>
  by_cases hland : tok = Token.LAND
  · subst hland
    have hopand := getTokenForOperator_eq_land _ htok
    rcases hcl : env.CastExpr p2 l.expr l.ctype "bool" with ⟨cl, el⟩
    rcases hcr : env.CastExpr (env.WarningOrError el n.toNode cl.isNone p2) r.expr r.ctype
      "bool" with ⟨cr, er⟩
    unfold transpileBinaryOperator at hok
    simp only [hchildren, List.get?, hleft, hle, hright, hre, htok,
      combinePreAndPostStmts, hcl, hcr, List.nil_append, if_true] at hok
    have hres := hfin _ _ hok rfl
    constructor
    · intro S a p3 hop
      rw [hopand] at hop
      exact absurd hop (by decide)
    · intro _
      exact ⟨hres.1.symm, hres.2.symm⟩
  · by_cases hassign : tok = Token.ASSIGN
    · subst hassign
      have hop := getTokenForOperator_eq_assign _ htok
      cases hg : GetAllocationSizeNode env.GetAllNodesOfType
          env.getNameOfFunctionFromCallExpr child1 with
      | panic =>
        exfalso
        unfold transpileBinaryOperator at hok
        simp only [hchildren, List.get?, hleft, hle, hright, hre, htok, hland, if_false,
          if_true, hg] at hok
        cases hok
      | ok o =>
        cases o with
        | none =>
          constructor
          · intro S a p3 _ hS
            cases hS
          · intro _
            rcases hc : env.CastExpr p2 r.expr r.ctype
              (env.ResolveTypeForBinaryOperator p2 "=" l.ctype r.ctype) with ⟨c, ce⟩
            by_cases hv : isUnaryExpr c = true ∧ (GetDereferenceType r.ctype).2 = none
            · rw [assign_cast_view env n p p1 p2 child0 child1 rest l r c ce hop hchildren
                hleft hle hright hre hg hc hv] at hok
              have hres := hfin _ _ hok rfl
              exact ⟨hres.1.symm, hres.2.symm⟩
            · rw [assign_cast_plain env n p p1 p2 child0 child1 rest l r c ce hop hchildren
                hleft hle hright hre hg hc hv] at hok
              have hres := hfin _ _ hok rfl
              exact ⟨hres.1.symm, hres.2.symm⟩
        | some S0 =>
          constructor
          · intro S a p3 _ hS ha
            have hSS : S0 = S := Option.some.inj (Res_ok_inj _ _ hS)
            subst hSS
            rcases hd : GetDereferenceType l.ctype with ⟨d, derr⟩
            rcases ht : env.ResolveType p3 l.ctype with ⟨T, terr⟩
            rcases hs : env.SizeOf p3 d with ⟨sz, serr⟩
            unfold transpileBinaryOperator at hok
            simp only [hchildren, List.get?, hleft, hle, hright, hre, htok, hland,
              if_false, if_true, hg, ha, combinePreAndPostStmts, List.nil_append] at hok
            cases hae : a.err with
            | some e =>
              exfalso
              simp only [hae] at hok
              exact hbad _ _ e rfl hok
            | none =>
              simp only [hae, hd] at hok
              cases derr with
              | some e =>
                exfalso
                simp only at hok
                exact hbad _ _ e rfl hok
              | none =>
                simp only [ht] at hok
                cases terr with
                | some e =>
                  exfalso
                  simp only at hok
                  exact hbad _ _ e rfl hok
                | none =>
                  simp only [hs] at hok
                  cases serr with
                  | some e =>
                    exfalso
                    simp only at hok
                    exact hbad _ _ e rfl hok
                  | none =>
                    simp only [binaryReturn] at hok
                    have hres := hfin _ _ hok rfl
                    exact ⟨hres.1.symm, hres.2.symm⟩
          · intro hno
            exact absurd ⟨hop, S0, rfl⟩ hno
    · unfold transpileBinaryOperator at hok
      simp only [hchildren, List.get?, hleft, hle, hright, hre, htok, hland, hassign,
        if_false, combinePreAndPostStmts, List.nil_append, binaryReturn] at hok
      have hres := hfin _ _ hok rfl
      constructor
      · intro S a p3 hop
        rw [hop, getTokenForOperator_assign] at htok
        exact absurd (Option.some.inj htok).symm hassign
      · intro _
        exact ⟨hres.1.symm, hres.2.symm⟩

/-- Witness of C11: in `f() + g()` both calls are hoisted, and the statement hoisted
for `f()` comes before the one hoisted for `g()`, in both lists. -/
theorem transpileBinaryOperator_statement_order_witness :
    ((⟨some (GoExpr.BinaryExpr (some (GoExpr.Ident "tmp_f")) Token.ADD
          (some (GoExpr.Ident "tmp_g"))), "int",
        [GoStmt.Other "tmp_f := f()", GoStmt.Other "tmp_g := g()"],
        [GoStmt.Other "release(tmp_f)", GoStmt.Other "release(tmp_g)"],
        none⟩ : BinaryResult).preStmts =
      [GoStmt.Other "tmp_f := f()"] ++ [GoStmt.Other "tmp_g := g()"]) ∧
    transpileBinaryOperator hoistEnv sumOfCalls Program.empty =
      Res.ok (⟨some (GoExpr.BinaryExpr (some (GoExpr.Ident "tmp_f")) Token.ADD
          (some (GoExpr.Ident "tmp_g"))), "int",
        [GoStmt.Other "tmp_f := f()", GoStmt.Other "tmp_g := g()"],
        [GoStmt.Other "release(tmp_f)", GoStmt.Other "release(tmp_g)"],
        none⟩, Program.empty) :=
  ⟨((transpileBinaryOperator_statement_order hoistEnv sumOfCalls Program.empty
      Program.empty Program.empty Program.empty (callOf "f" "int" []) (callOf "g" "int" [])
      []
      ⟨some (GoExpr.Ident "tmp_f"), "int", [GoStmt.Other "tmp_f := f()"],
        [GoStmt.Other "release(tmp_f)"], none⟩
      ⟨some (GoExpr.Ident "tmp_g"), "int", [GoStmt.Other "tmp_g := g()"],
        [GoStmt.Other "release(tmp_g)"], none⟩
      ⟨some (GoExpr.BinaryExpr (some (GoExpr.Ident "tmp_f")) Token.ADD
          (some (GoExpr.Ident "tmp_g"))), "int",
        [GoStmt.Other "tmp_f := f()", GoStmt.Other "tmp_g := g()"],
        [GoStmt.Other "release(tmp_f)", GoStmt.Other "release(tmp_g)"],
        none⟩
      (by rfl) (by rfl) (by rfl) (by rfl) (by rfl)).2
      (fun h => absurd h.1 (by decide))).1,
   by rfl⟩

end C2Go
